import Mathlib

/-!
Verification of the proposal-assistant workflow engine.

This file gives a shallow embedding, in Lean 4, of the parts of the
repository that the specification's testable properties talk about:

* `state/models.py` and `state/machine.py` — the conversation state
  record, the 13-row transition table, and `StateMachine.transition`
  (including the cache / storage behaviour of `get_state`);
* `llm/context_builder.py` — the token estimators, `chunk_text` and its
  helpers, `_merge_transcripts`, `_truncate_to_budget`, and the
  transcript part of `build_context`;
* `llm/client.py` — the retry loop of `LLMClient._call_with_retry`;
* `web/fetcher.py` — the retry loop of `WebFetcher.fetch_url`.

Python strings are modelled as `List Char`; `datetime` values as `Nat`
timestamps; machine integers as `Nat` (all the counters involved are
non-negative).  The word-based token estimator `int(words * 1.3)` is
modelled as the exact `13 * words / 10` (natural floor division), which
agrees with the double-precision computation for every realistic word
count.  Side effects (storage saves, backend calls, `time.sleep`) are
made explicit as logs carried in the return values.
-/

/-! ## State machine: `state/models.py` -/

/-- Conversation state for a thread (`State` enum in `state/models.py`). -/
inductive WState where
  | IDLE
  | WAITING_FOR_INPUTS
  | GENERATING_DEAL_ANALYSIS
  | WAITING_FOR_APPROVAL
  | GENERATING_DECK
  | DONE
  | ERROR
deriving DecidableEq, Repr, Fintype

/-- Events that trigger state transitions (`Event` enum in `state/models.py`). -/
inductive WEvent where
  | ANALYSE_REQUESTED
  | INPUTS_MISSING
  | DEAL_ANALYSIS_CREATED
  | APPROVED
  | REJECTED
  | UPDATED_DEAL_ANALYSIS_PROVIDED
  | DECK_CREATED
  | FAILED
  | REGENERATE_REQUESTED
  | CLOUD_CONSENT_GIVEN
deriving DecidableEq, Repr, Fintype

/-- Model of the `dict[str, Any]` deal-analysis payload: a JSON-like object
that the state machine itself never inspects, carried opaquely as key/value
pairs. -/
abbrev DealContent := List (String × String)

/-- `ThreadState` dataclass from `state/models.py`, with every field.
`datetime` fields are modelled as `Nat` timestamps. -/
structure ThreadState where
  thread_ts : String
  channel_id : String
  user_id : String
  channel_type : Option String := none
  user_email : Option String := none
  client_name : Option String := none
  client_folder_id : Option String := none
  analyse_folder_id : Option String := none
  proposals_folder_id : Option String := none
  deal_analysis_doc_id : Option String := none
  deal_analysis_link : Option String := none
  deal_analysis_content : Option DealContent := none
  deal_analysis_version : Nat := 1
  slides_deck_id : Option String := none
  slides_deck_link : Option String := none
  state : WState := WState.IDLE
  previous_state : Option WState := none
  input_transcript_file_ids : List String := []
  input_transcript_content : List String := []
  input_reference_file_ids : List String := []
  input_urls : List String := []
  missing_info_items : List String := []
  error_message : Option String := none
  error_type : Option String := none
  retry_count : Nat := 0
  cloud_consent_given : Bool := false
  created_at : Nat
  updated_at : Nat
deriving DecidableEq, Repr

/-- A fresh `ThreadState` as created by `StateMachine.get_state` on first
use: only the identifiers are supplied, all other fields take their
dataclass defaults (`created_at`/`updated_at` default to the current time). -/
def newThreadState (thread_ts channel_id user_id : String) (now : Nat) : ThreadState :=
  { thread_ts := thread_ts
    channel_id := channel_id
    user_id := user_id
    created_at := now
    updated_at := now }

/-! ## State machine: `state/machine.py` -/

/-- The `TRANSITIONS` table of `state/machine.py`: the 13 valid
`(current_state, event) -> next_state` edges, in source order. -/
def TRANSITIONS : List ((WState × WEvent) × WState) :=
  [ ((WState.IDLE, WEvent.ANALYSE_REQUESTED), WState.GENERATING_DEAL_ANALYSIS),
    ((WState.IDLE, WEvent.INPUTS_MISSING), WState.WAITING_FOR_INPUTS),
    ((WState.GENERATING_DEAL_ANALYSIS, WEvent.DEAL_ANALYSIS_CREATED), WState.WAITING_FOR_APPROVAL),
    ((WState.GENERATING_DEAL_ANALYSIS, WEvent.FAILED), WState.ERROR),
    ((WState.WAITING_FOR_APPROVAL, WEvent.APPROVED), WState.GENERATING_DECK),
    ((WState.WAITING_FOR_APPROVAL, WEvent.REJECTED), WState.DONE),
    ((WState.WAITING_FOR_APPROVAL, WEvent.UPDATED_DEAL_ANALYSIS_PROVIDED), WState.GENERATING_DECK),
    ((WState.WAITING_FOR_APPROVAL, WEvent.REGENERATE_REQUESTED), WState.GENERATING_DEAL_ANALYSIS),
    ((WState.GENERATING_DECK, WEvent.DECK_CREATED), WState.DONE),
    ((WState.GENERATING_DECK, WEvent.FAILED), WState.ERROR),
    ((WState.ERROR, WEvent.ANALYSE_REQUESTED), WState.GENERATING_DEAL_ANALYSIS),
    ((WState.ERROR, WEvent.CLOUD_CONSENT_GIVEN), WState.GENERATING_DEAL_ANALYSIS),
    ((WState.ERROR, WEvent.REJECTED), WState.DONE) ]

/-- Dictionary lookup `TRANSITIONS[(state, event)]`. -/
def findTransition (s : WState) (e : WEvent) : Option WState :=
  TRANSITIONS.lookup (s, e)

/-- `StateMachine.can_transition`: `(current_state, event) in TRANSITIONS`. -/
def canTransition (s : WState) (e : WEvent) : Bool :=
  (findTransition s e).isSome

/-- The state update performed by `StateMachine.transition` once the edge is
validated (lines 113–122 of `state/machine.py`): set `previous_state`,
`state`, stamp `updated_at`, then apply the `**kwargs` field updates
(modelled by `upd`).  An invalid `(state, event)` pair yields the
`InvalidTransitionError` payload `(current_state, event)` instead. -/
def transitionPure (ts : ThreadState) (e : WEvent) (now : Nat)
    (upd : ThreadState → ThreadState) : Except (WState × WEvent) ThreadState :=
  match findTransition ts.state e with
  | none => .error (ts.state, e)
  | some next =>
      .ok (upd { ts with
                  previous_state := some ts.state
                  state := next
                  updated_at := now })

/-- The `StateMachine` object together with its storage collaborator:
`cache` is `self._cache` (keyed by `f"{channel_id}_{thread_ts}"`),
`hasStorage` records whether `self._storage` is set, `storage` is the
backend's key→state map, and `saveLog` records every `storage.save` call
(most recent first). -/
structure Machine where
  hasStorage : Bool
  storage : List (String × ThreadState)
  cache : List (String × ThreadState)
  saveLog : List ThreadState
deriving Repr

/-- `StateMachine._make_key`. -/
def makeKey (thread_ts channel_id : String) : String :=
  channel_id ++ "_" ++ thread_ts

/-- One `storage.save(state)` call: last-write-wins insert plus log entry. -/
def saveToStorage (m : Machine) (key : String) (ts : ThreadState) : Machine :=
  { m with
      storage := (key, ts) :: (m.storage.filter (fun p => p.1 ≠ key))
      saveLog := ts :: m.saveLog }

/-- `StateMachine.get_state`: cache hit, else storage load (caching the
result), else lazily create a fresh `IDLE` record (persisting it when a
storage backend is configured). -/
def getState (m : Machine) (thread_ts channel_id user_id : String) (now : Nat) :
    ThreadState × Machine :=
  let key := makeKey thread_ts channel_id
  match m.cache.lookup key with
  | some s => (s, m)
  | none =>
      match (if m.hasStorage then m.storage.lookup key else none) with
      | some s => (s, { m with cache := (key, s) :: m.cache })
      | none =>
          let s := newThreadState thread_ts channel_id user_id now
          let m1 := { m with cache := (key, s) :: m.cache }
          (s, if m1.hasStorage then saveToStorage m1 key s else m1)

/-- `StateMachine.transition`: look up (or lazily create) the thread state,
raise `InvalidTransitionError(state.state, event)` when the edge is absent,
otherwise apply the transition and `**kwargs` updates (`upd`), refresh the
cache entry, and persist through storage.  The machine after all side
effects is returned in both outcomes, as the Python object survives the
raised exception. -/
def machineTransition (m : Machine) (thread_ts channel_id : String) (e : WEvent)
    (now : Nat) (upd : ThreadState → ThreadState) :
    Except (WState × WEvent) ThreadState × Machine :=
  let key := makeKey thread_ts channel_id
  let (s, m1) := getState m thread_ts channel_id "" now
  if canTransition s.state e then
    match transitionPure s e now upd with
    | .error p => (.error p, m1)
    | .ok s' =>
        let m2 := { m1 with cache := (key, s') :: (m1.cache.filter (fun p => p.1 ≠ key)) }
        (.ok s', if m2.hasStorage then saveToStorage m2 key s' else m2)
  else
    (.error (s.state, e), m1)

/-- The thread state an external observer would read back for a key:
cache first, then the storage backend — mirroring `get_state`'s lookup
order without the creation side effect. -/
def lookupState (m : Machine) (thread_ts channel_id : String) : Option ThreadState :=
  match m.cache.lookup (makeKey thread_ts channel_id) with
  | some s => some s
  | none => if m.hasStorage then m.storage.lookup (makeKey thread_ts channel_id) else none

/-! ## Transition traces (for the approval-gate and version properties) -/

/-- `TraceFrom s l` holds when `l` is the sequence of states visited by some
sequence of valid transitions (edges of `TRANSITIONS`) starting at `s`. -/
inductive TraceFrom : WState → List WState → Prop where
  | nil (s : WState) : TraceFrom s []
  | cons {s s' : WState} {rest : List WState} (e : WEvent)
      (hedge : findTransition s e = some s')
      (htail : TraceFrom s' rest) : TraceFrom s (s' :: rest)

/-- `HandlerSteps s n t`: the thread state evolves from `s` to `t` by a
sequence of successful `transition` calls as the Slack handlers issue them,
`n` of which are regenerations.  A `REGENERATE_REQUESTED` call carries the
keyword update `deal_analysis_version = current + 1` computed by
`handle_regenerate` (`slack/handlers.py` lines 577–584); every other call
carries keyword updates that do not touch `deal_analysis_version`, which
is the case for every other `transition` call site in the repository. -/
inductive HandlerSteps : ThreadState → Nat → ThreadState → Prop where
  | refl (s : ThreadState) : HandlerSteps s 0 s
  | regen {s t t' : ThreadState} {n : Nat} (now : Nat)
      (hprev : HandlerSteps s n t)
      (hstep : transitionPure t WEvent.REGENERATE_REQUESTED now
                 (fun u => { u with deal_analysis_version := t.deal_analysis_version + 1 })
               = .ok t') :
      HandlerSteps s (n + 1) t'
  | other {s t t' : ThreadState} {n : Nat} (e : WEvent) (now : Nat)
      (upd : ThreadState → ThreadState)
      (hne : e ≠ WEvent.REGENERATE_REQUESTED)
      (hupd : ∀ u, (upd u).deal_analysis_version = u.deal_analysis_version)
      (hprev : HandlerSteps s n t)
      (hstep : transitionPure t e now upd = .ok t') :
      HandlerSteps s n t'

/-! ## Approval gate (C1) -/

/-- Every edge of the table that lands in `GENERATING_DECK` leaves from
`WAITING_FOR_APPROVAL`. -/
lemma deck_edge_source : ∀ (s : WState) (e : WEvent),
    findTransition s e = some WState.GENERATING_DECK →
    s = WState.WAITING_FOR_APPROVAL := by
  decide

/-- In a trace from `s`, any visit to `GENERATING_DECK` is immediately
preceded by `WAITING_FOR_APPROVAL` (or `s` itself is that predecessor). -/
lemma trace_deck_pred {s : WState} {l : List WState} (h : TraceFrom s l) :
    ∀ i (hi : i < l.length), l.get ⟨i, hi⟩ = WState.GENERATING_DECK →
      (i = 0 ∧ s = WState.WAITING_FOR_APPROVAL) ∨
      (∃ j, ∃ hj : j < l.length, i = j + 1 ∧
        l.get ⟨j, hj⟩ = WState.WAITING_FOR_APPROVAL) := by
  induction h with
  | nil s => intro i hi; simp at hi
  | cons e hedge htail ih =>
      rename_i s0 s1 rest
      intro i hi hdeck
      match i with
      | 0 =>
          left
          simp only [List.get] at hdeck
          exact ⟨rfl, deck_edge_source _ _ (hdeck ▸ hedge)⟩
      | Nat.succ k =>
          right
          simp only [List.get] at hdeck
          have hk : k < rest.length := by simpa using hi
          rcases ih k hk hdeck with ⟨hk0, hsrc⟩ | ⟨j, hj, hkj, hget⟩
          · subst hk0
            exact ⟨0, by simp, rfl, by simpa using hsrc⟩
          · exact ⟨j + 1, by simpa using Nat.succ_lt_succ hj, by omega, by simpa using hget⟩

/-! ## Text model: whitespace, words, splitting (for `context_builder.py`) -/

/-- Python text modelled as a list of characters. -/
abbrev PyText := List Char

/-- The whitespace characters recognised by `str.strip()` / `str.split()`
(ASCII subset, which covers the separators the code itself introduces). -/
def isSpaceChar (c : Char) : Bool :=
  c = ' ' ∨ c = '\t' ∨ c = '\n' ∨ c = '\r' ∨ c = '\x0b' ∨ c = '\x0c'

/-- `str.strip()`: drop leading and trailing whitespace. -/
def stripText (t : PyText) : PyText :=
  ((t.dropWhile isSpaceChar).reverse.dropWhile isSpaceChar).reverse

/-- Helper for `str.split()`: accumulate the current word (reversed). -/
def wordsAux : PyText → PyText → List PyText
  | [], acc => if acc = [] then [] else [acc.reverse]
  | c :: rest, acc =>
      if isSpaceChar c then
        if acc = [] then wordsAux rest [] else acc.reverse :: wordsAux rest []
      else wordsAux rest (c :: acc)

/-- `str.split()` with no argument: words separated by whitespace runs,
empty pieces discarded. -/
def wordsOf (t : PyText) : List PyText := wordsAux t []

/-! ## Token estimators (`count_tokens`, `_estimate_tokens`) -/

/-- The word-based fallback of `count_tokens`: `int(len(text.split()) * 1.3)`,
modelled as the exact `13 * words / 10` (the double-precision product never
strays across an integer boundary for realistic word counts). -/
def countTokens (t : PyText) : Nat :=
  13 * (wordsOf t).length / 10

/-- `ContextBuilder._estimate_tokens`: `len(text) // CHARS_PER_TOKEN`
with `CHARS_PER_TOKEN = 4`. -/
def estimateTokens (t : PyText) : Nat := t.length / 4

/-- `ContextBuilder.MAX_TRANSCRIPT_TOKENS`. -/
def MAX_TRANSCRIPT_TOKENS : Nat := 24000

/-- `ContextBuilder.CHARS_PER_TOKEN`. -/
def CHARS_PER_TOKEN : Nat := 4

set_option maxRecDepth 4000 in
/-- C1: For every sequence of valid transitions starting from a fresh
`ThreadState` in `IDLE`, `GENERATING_DECK` is never reached unless the
sequence previously passed through `WAITING_FOR_APPROVAL`; equivalently,
every `TRANSITIONS` edge into `GENERATING_DECK` has source
`WAITING_FOR_APPROVAL`. -/
theorem approval_gate (l : List WState) (htrace : TraceFrom WState.IDLE l) :
    (∀ p ∈ TRANSITIONS, p.2 = WState.GENERATING_DECK →
        p.1.1 = WState.WAITING_FOR_APPROVAL) ∧
    (∀ i (hi : i < l.length), l.get ⟨i, hi⟩ = WState.GENERATING_DECK →
        ∃ j, ∃ hj : j < l.length, j < i ∧
          l.get ⟨j, hj⟩ = WState.WAITING_FOR_APPROVAL) := by
  refine ⟨by decide, ?_⟩
  intro i hi hdeck
  rcases trace_deck_pred htrace i hi hdeck with ⟨_, habs⟩ | ⟨j, hj, hij, hget⟩
  · cases habs
  · exact ⟨j, hj, by omega, hget⟩

/-- Witness for `approval_gate`: the concrete run
`IDLE → GENERATING_DEAL_ANALYSIS → WAITING_FOR_APPROVAL → GENERATING_DECK`
hits `GENERATING_DECK` at index 2 and indeed visited `WAITING_FOR_APPROVAL`
before it. -/
theorem approval_gate_witness :
    ∃ j, ∃ hj : j < ([WState.GENERATING_DEAL_ANALYSIS, WState.WAITING_FOR_APPROVAL,
        WState.GENERATING_DECK] : List WState).length, j < 2 ∧
      ([WState.GENERATING_DEAL_ANALYSIS, WState.WAITING_FOR_APPROVAL,
        WState.GENERATING_DECK] : List WState).get ⟨j, hj⟩ = WState.WAITING_FOR_APPROVAL :=
  (approval_gate _
      (TraceFrom.cons WEvent.ANALYSE_REQUESTED (by decide)
        (TraceFrom.cons WEvent.DEAL_ANALYSIS_CREATED (by decide)
          (TraceFrom.cons WEvent.APPROVED (by decide) (TraceFrom.nil _))))).2
    2 (by decide) (by decide)

/-- C2: For a `(state, event)` pair absent from the 13-row table,
`StateMachine.transition` raises `InvalidTransitionError` carrying the
rejected current state and event, and the stored `ThreadState` is
unchanged: the storage backend and the save log are untouched (nothing is
persisted) and the record read back for the key is the same, field for
field. -/
theorem invalid_transition_rejected (m : Machine) (tts ch : String) (e : WEvent)
    (t : ThreadState) (now : Nat) (upd : ThreadState → ThreadState)
    (hstored : lookupState m tts ch = some t)
    (hinvalid : findTransition t.state e = none) :
    (machineTransition m tts ch e now upd).1 = .error (t.state, e) ∧
    (machineTransition m tts ch e now upd).2.storage = m.storage ∧
    (machineTransition m tts ch e now upd).2.saveLog = m.saveLog ∧
    lookupState (machineTransition m tts ch e now upd).2 tts ch = some t := by
  have hcan : canTransition t.state e = false := by
    simp [canTransition, hinvalid]
  unfold lookupState at hstored
  cases hcache : m.cache.lookup (makeKey tts ch) with
  | some s =>
      rw [hcache] at hstored
      injection hstored with hs
      subst hs
      refine ⟨?_, ?_, ?_, ?_⟩ <;>
        simp [machineTransition, getState, hcache, hcan, lookupState]
  | none =>
      rw [hcache] at hstored
      cases hhs : m.hasStorage with
      | false => rw [hhs] at hstored; simp at hstored
      | true =>
          rw [hhs] at hstored
          simp only [if_true] at hstored
          refine ⟨?_, ?_, ?_, ?_⟩ <;>
            simp [machineTransition, getState, hcache, hhs, hstored, hcan,
              lookupState, List.lookup]

/-- Witness for `invalid_transition_rejected`: a machine holding a `DONE`
thread rejects `APPROVED`. -/
theorem invalid_transition_rejected_witness :
    (machineTransition
        { hasStorage := false, storage := [],
          cache := [("C_1", { newThreadState "1" "C" "U" 0 with state := WState.DONE })],
          saveLog := [] }
        "1" "C" WEvent.APPROVED 7 (fun u => u)).1
      = .error (WState.DONE, WEvent.APPROVED) ∧
    (machineTransition
        { hasStorage := false, storage := [],
          cache := [("C_1", { newThreadState "1" "C" "U" 0 with state := WState.DONE })],
          saveLog := [] }
        "1" "C" WEvent.APPROVED 7 (fun u => u)).2.saveLog = [] :=
  ⟨(invalid_transition_rejected _ "1" "C" WEvent.APPROVED
      { newThreadState "1" "C" "U" 0 with state := WState.DONE } 7 (fun u => u)
      (by decide) (by decide)).1,
   (invalid_transition_rejected _ "1" "C" WEvent.APPROVED
      { newThreadState "1" "C" "U" 0 with state := WState.DONE } 7 (fun u => u)
      (by decide) (by decide)).2.2.1⟩

/-- `deal_analysis_version` after a handler-issued run equals the starting
version plus the number of regeneration steps. -/
lemma handlerSteps_version {s t : ThreadState} {n : Nat} (h : HandlerSteps s n t) :
    t.deal_analysis_version = s.deal_analysis_version + n := by
  induction h with
  | refl => rfl
  | @regen t t' n now hprev hstep ih =>
      unfold transitionPure at hstep
      cases hfind : findTransition t.state WEvent.REGENERATE_REQUESTED with
      | none => rw [hfind] at hstep; cases hstep
      | some nx =>
          rw [hfind] at hstep
          cases hstep
          simp only []
          omega
  | @other t t' n e now upd hne hupd hprev hstep ih =>
      unfold transitionPure at hstep
      cases hfind : findTransition t.state e with
      | none => rw [hfind] at hstep; cases hstep
      | some nx =>
          rw [hfind] at hstep
          cases hstep
          rw [hupd]
          exact ih

/-- C3: `deal_analysis_version` starts at 1 on a fresh `ThreadState`, never
decreases across any sequence of handler-issued transitions, changes only
through a `REGENERATE_REQUESTED` step, and after `N` successful
regenerations from a fresh state equals `1 + N`. -/
theorem version_monotonic :
    (∀ tts ch u now, (newThreadState tts ch u now).deal_analysis_version = 1) ∧
    (∀ (s t : ThreadState) (n : Nat), HandlerSteps s n t →
        t.deal_analysis_version = s.deal_analysis_version + n ∧
        s.deal_analysis_version ≤ t.deal_analysis_version) ∧
    (∀ (s t t' : ThreadState) (n : Nat) (e : WEvent) (now : Nat)
        (upd : ThreadState → ThreadState),
        e ≠ WEvent.REGENERATE_REQUESTED →
        (∀ u, (upd u).deal_analysis_version = u.deal_analysis_version) →
        HandlerSteps s n t → transitionPure t e now upd = .ok t' →
        t'.deal_analysis_version = t.deal_analysis_version) ∧
    (∀ tts ch u now (t : ThreadState) (N : Nat),
        HandlerSteps (newThreadState tts ch u now) N t →
        t.deal_analysis_version = 1 + N) := by
  refine ⟨fun _ _ _ _ => rfl, ?_, ?_, ?_⟩
  · intro s t n h
    have := handlerSteps_version h
    exact ⟨this, by omega⟩
  · intro s t t' n e now upd hne hupd hsteps hstep
    have h1 := handlerSteps_version hsteps
    have h2 := handlerSteps_version (HandlerSteps.other e now upd hne hupd hsteps hstep)
    omega
  · intro tts ch u now t N h
    have := handlerSteps_version h
    simpa [newThreadState, Nat.add_comm] using this

/-- A concrete three-step handler run — analyse, analysis created, then one
regeneration — used by the version-monotonicity witness. -/
def c3Chain :
    HandlerSteps (newThreadState "t" "c" "u" 0) 1
      { newThreadState "t" "c" "u" 0 with
          previous_state := some WState.WAITING_FOR_APPROVAL
          state := WState.GENERATING_DEAL_ANALYSIS
          updated_at := 3
          deal_analysis_version := 2 } := by
  have h1 : HandlerSteps (newThreadState "t" "c" "u" 0) 0
      { newThreadState "t" "c" "u" 0 with
          previous_state := some WState.IDLE
          state := WState.GENERATING_DEAL_ANALYSIS
          updated_at := 1 } :=
    HandlerSteps.other WEvent.ANALYSE_REQUESTED 1 (fun u => u) (by decide)
      (fun u => rfl) (HandlerSteps.refl _) rfl
  have h2 : HandlerSteps (newThreadState "t" "c" "u" 0) 0
      { newThreadState "t" "c" "u" 0 with
          previous_state := some WState.GENERATING_DEAL_ANALYSIS
          state := WState.WAITING_FOR_APPROVAL
          updated_at := 2 } :=
    HandlerSteps.other WEvent.DEAL_ANALYSIS_CREATED 2 (fun u => u) (by decide)
      (fun u => rfl) h1 rfl
  exact HandlerSteps.regen 3 h2 rfl

/-- Witness for `version_monotonic`: after the concrete single-regeneration
run `c3Chain`, the version is `1 + 1 = 2`. -/
theorem version_monotonic_witness :
    (newThreadState "t" "c" "u" 0).deal_analysis_version = 1 ∧
    ({ newThreadState "t" "c" "u" 0 with
        previous_state := some WState.WAITING_FOR_APPROVAL
        state := WState.GENERATING_DEAL_ANALYSIS
        updated_at := 3
        deal_analysis_version := 2 } : ThreadState).deal_analysis_version = 1 + 1 :=
  ⟨version_monotonic.1 "t" "c" "u" 0,
   version_monotonic.2.2.2 "t" "c" "u" 0 _ 1 c3Chain⟩

/-- C10: A valid transition applied with no keyword updates changes only
`state`, `previous_state` and `updated_at`; every other `ThreadState`
field is preserved, and `previous_state` becomes the state held just
before the transition. -/
theorem transition_frame (ts : ThreadState) (e : WEvent) (s' : WState) (now : Nat)
    (h : findTransition ts.state e = some s') :
    ∃ t', transitionPure ts e now (fun u => u) = .ok t' ∧
      t'.state = s' ∧
      t'.previous_state = some ts.state ∧
      t'.updated_at = now ∧
      t'.thread_ts = ts.thread_ts ∧
      t'.channel_id = ts.channel_id ∧
      t'.user_id = ts.user_id ∧
      t'.channel_type = ts.channel_type ∧
      t'.user_email = ts.user_email ∧
      t'.client_name = ts.client_name ∧
      t'.client_folder_id = ts.client_folder_id ∧
      t'.analyse_folder_id = ts.analyse_folder_id ∧
      t'.proposals_folder_id = ts.proposals_folder_id ∧
      t'.deal_analysis_doc_id = ts.deal_analysis_doc_id ∧
      t'.deal_analysis_link = ts.deal_analysis_link ∧
      t'.deal_analysis_content = ts.deal_analysis_content ∧
      t'.deal_analysis_version = ts.deal_analysis_version ∧
      t'.slides_deck_id = ts.slides_deck_id ∧
      t'.slides_deck_link = ts.slides_deck_link ∧
      t'.input_transcript_file_ids = ts.input_transcript_file_ids ∧
      t'.input_transcript_content = ts.input_transcript_content ∧
      t'.input_reference_file_ids = ts.input_reference_file_ids ∧
      t'.input_urls = ts.input_urls ∧
      t'.missing_info_items = ts.missing_info_items ∧
      t'.error_message = ts.error_message ∧
      t'.error_type = ts.error_type ∧
      t'.retry_count = ts.retry_count ∧
      t'.cloud_consent_given = ts.cloud_consent_given ∧
      t'.created_at = ts.created_at := by
  refine ⟨{ ts with previous_state := some ts.state, state := s', updated_at := now }, ?_, ?_⟩
  · unfold transitionPure
    rw [h]
  · exact ⟨rfl, rfl, rfl, rfl, rfl, rfl, rfl, rfl, rfl, rfl, rfl, rfl, rfl, rfl, rfl,
      rfl, rfl, rfl, rfl, rfl, rfl, rfl, rfl, rfl, rfl, rfl, rfl, rfl⟩

/-- Witness for `transition_frame`: the concrete `IDLE → ANALYSE_REQUESTED`
edge on a fresh thread state. -/
theorem transition_frame_witness :
    ∃ t', transitionPure (newThreadState "w" "d" "v" 0) WEvent.ANALYSE_REQUESTED 5
        (fun u => u) = .ok t' ∧
      t'.state = WState.GENERATING_DEAL_ANALYSIS ∧
      t'.previous_state = some (newThreadState "w" "d" "v" 0).state ∧
      t'.updated_at = 5 ∧
      t'.thread_ts = (newThreadState "w" "d" "v" 0).thread_ts ∧
      t'.channel_id = (newThreadState "w" "d" "v" 0).channel_id ∧
      t'.user_id = (newThreadState "w" "d" "v" 0).user_id ∧
      t'.channel_type = (newThreadState "w" "d" "v" 0).channel_type ∧
      t'.user_email = (newThreadState "w" "d" "v" 0).user_email ∧
      t'.client_name = (newThreadState "w" "d" "v" 0).client_name ∧
      t'.client_folder_id = (newThreadState "w" "d" "v" 0).client_folder_id ∧
      t'.analyse_folder_id = (newThreadState "w" "d" "v" 0).analyse_folder_id ∧
      t'.proposals_folder_id = (newThreadState "w" "d" "v" 0).proposals_folder_id ∧
      t'.deal_analysis_doc_id = (newThreadState "w" "d" "v" 0).deal_analysis_doc_id ∧
      t'.deal_analysis_link = (newThreadState "w" "d" "v" 0).deal_analysis_link ∧
      t'.deal_analysis_content = (newThreadState "w" "d" "v" 0).deal_analysis_content ∧
      t'.deal_analysis_version = (newThreadState "w" "d" "v" 0).deal_analysis_version ∧
      t'.slides_deck_id = (newThreadState "w" "d" "v" 0).slides_deck_id ∧
      t'.slides_deck_link = (newThreadState "w" "d" "v" 0).slides_deck_link ∧
      t'.input_transcript_file_ids = (newThreadState "w" "d" "v" 0).input_transcript_file_ids ∧
      t'.input_transcript_content = (newThreadState "w" "d" "v" 0).input_transcript_content ∧
      t'.input_reference_file_ids = (newThreadState "w" "d" "v" 0).input_reference_file_ids ∧
      t'.input_urls = (newThreadState "w" "d" "v" 0).input_urls ∧
      t'.missing_info_items = (newThreadState "w" "d" "v" 0).missing_info_items ∧
      t'.error_message = (newThreadState "w" "d" "v" 0).error_message ∧
      t'.error_type = (newThreadState "w" "d" "v" 0).error_type ∧
      t'.retry_count = (newThreadState "w" "d" "v" 0).retry_count ∧
      t'.cloud_consent_given = (newThreadState "w" "d" "v" 0).cloud_consent_given ∧
      t'.created_at = (newThreadState "w" "d" "v" 0).created_at :=
  transition_frame (newThreadState "w" "d" "v" 0) WEvent.ANALYSE_REQUESTED
    WState.GENERATING_DEAL_ANALYSIS 5 (by decide)

/-! ## Retry loop of `LLMClient._call_with_retry` (`llm/client.py`) -/

/-- Outcome of one `self._client.chat.completions.create(...)` call, as the
`try`/`except` arms of `_call_with_retry` distinguish them: a returned
response (with its message content), an `APIConnectionError`, an
`APIStatusError`/`APITimeoutError`, or any other exception. -/
inductive LLMCallResult where
  | success (content : PyText)
  | connectionError
  | statusOrTimeoutError
  | otherError
deriving DecidableEq, Repr

/-- The `error_type` codes of `LLMError` (`llm/client.py`). -/
inductive LLMErrorType where
  | LLM_ERROR
  | LLM_INVALID
  | LLM_OFFLINE
deriving DecidableEq, Repr

/-- Result of `_call_with_retry`, with the side effects made observable:
how many times the backend was invoked, and which `time.sleep` durations
ran, in order. -/
structure RetryOutcome where
  result : Except LLMErrorType PyText
  attempts : Nat
  sleeps : List Nat
deriving Repr

/-- `LLMClient.MAX_RETRIES`. -/
def MAX_RETRIES : Nat := 3

/-- `LLMClient.BACKOFF_SECONDS`. -/
def BACKOFF_SECONDS : List Nat := [1, 2, 4]

/-- The body of `_call_with_retry`'s `for attempt in range(MAX_RETRIES)`
loop.  `backend i` is what the i-th `completions.create` call does;
`fuel` counts the remaining iterations (`attempt + fuel = MAX_RETRIES`).
An empty/whitespace-only response raises `LLMError(LLM_INVALID)`, which the
`except LLMError: raise` arm re-raises without retrying; a connection error
on the last attempt raises `LLM_OFFLINE`; other errors fall through to the
sleep (skipped after the final attempt) and, once the loop ends, to the
generic `LLM_ERROR`. -/
def callWithRetryGo (backend : Nat → LLMCallResult) :
    Nat → Nat → List Nat → RetryOutcome
  | attempt, 0, sleeps => { result := .error .LLM_ERROR, attempts := attempt, sleeps := sleeps }
  | attempt, fuel + 1, sleeps =>
      match backend attempt with
      | .success content =>
          if stripText content = [] then
            { result := .error .LLM_INVALID, attempts := attempt + 1, sleeps := sleeps }
          else
            { result := .ok content, attempts := attempt + 1, sleeps := sleeps }
      | .connectionError =>
          if attempt = MAX_RETRIES - 1 then
            { result := .error .LLM_OFFLINE, attempts := attempt + 1, sleeps := sleeps }
          else
            callWithRetryGo backend (attempt + 1) fuel
              (sleeps ++ [BACKOFF_SECONDS.getD attempt 0])
      | .statusOrTimeoutError =>
          callWithRetryGo backend (attempt + 1) fuel
            (if attempt < MAX_RETRIES - 1 then sleeps ++ [BACKOFF_SECONDS.getD attempt 0]
             else sleeps)
      | .otherError =>
          callWithRetryGo backend (attempt + 1) fuel
            (if attempt < MAX_RETRIES - 1 then sleeps ++ [BACKOFF_SECONDS.getD attempt 0]
             else sleeps)

/-- `LLMClient._call_with_retry` over a given backend behaviour. -/
def callWithRetry (backend : Nat → LLMCallResult) : RetryOutcome :=
  callWithRetryGo backend 0 MAX_RETRIES []

/-- C7: an empty or whitespace-only response on the first attempt fails
immediately with the `LLM_INVALID` error kind, after exactly one backend
invocation and with no backoff sleep. -/
theorem empty_response_no_retry (backend : Nat → LLMCallResult) (c : PyText)
    (h : backend 0 = .success c) (hempty : stripText c = []) :
    callWithRetry backend =
      { result := .error .LLM_INVALID, attempts := 1, sleeps := [] } := by
  unfold callWithRetry MAX_RETRIES callWithRetryGo
  rw [h]
  simp [hempty]

/-- Witness for `empty_response_no_retry`: a backend that answers with a
single blank. -/
theorem empty_response_no_retry_witness :
    callWithRetry (fun _ => .success [' ']) =
      { result := .error .LLM_INVALID, attempts := 1, sleeps := [] } :=
  empty_response_no_retry (fun _ => .success [' ']) [' '] rfl (by decide)

/-- C8: three consecutive connection failures raise the distinct
`LLM_OFFLINE` error kind (not the generic `LLM_ERROR`), after exactly three
backend invocations, with backoff sleeps of 1s and 2s after the first two
failures and none after the last. -/
theorem conn_errors_offline (backend : Nat → LLMCallResult)
    (h : ∀ i, i < 3 → backend i = .connectionError) :
    callWithRetry backend =
      { result := .error .LLM_OFFLINE, attempts := 3, sleeps := [1, 2] } := by
  unfold callWithRetry MAX_RETRIES
  unfold callWithRetryGo
  rw [h 0 (by omega)]
  norm_num
  unfold callWithRetryGo
  rw [h 1 (by omega)]
  norm_num [BACKOFF_SECONDS]
  unfold callWithRetryGo
  rw [h 2 (by omega)]
  norm_num [MAX_RETRIES, BACKOFF_SECONDS]

/-- Witness for `conn_errors_offline`: a backend that always fails to
connect. -/
theorem conn_errors_offline_witness :
    callWithRetry (fun _ => .connectionError) =
      { result := .error .LLM_OFFLINE, attempts := 3, sleeps := [1, 2] } :=
  conn_errors_offline (fun _ => .connectionError) (fun _ _ => rfl)

/-! ## Retry loop of `WebFetcher.fetch_url` (`web/fetcher.py`) -/

/-- Outcome of one `urllib.request.urlopen` attempt, as the `except` arms
of `fetch_url` distinguish them: a decoded page, an `HTTPError` with a
status code, a `URLError` (connection/timeout failures), or any other
exception. -/
inductive FetchCallResult where
  | success (content : PyText)
  | httpError (code : Nat)
  | urlError
  | otherError
deriving DecidableEq, Repr

/-- Result of `fetch_url`, with the request count and the `time.sleep`
durations made observable. -/
structure FetchOutcome where
  result : Option PyText
  attempts : Nat
  sleeps : List Nat
deriving DecidableEq, Repr

/-- `WebFetcher.MAX_RETRIES`. -/
def FETCH_MAX_RETRIES : Nat := 3

/-- `WebFetcher.BACKOFF_SECONDS` (`[1.0, 2.0]`, in whole seconds). -/
def FETCH_BACKOFF_SECONDS : List Nat := [1, 2]

/-- The body of `fetch_url`'s `for attempt in range(MAX_RETRIES)` loop.
A success returns the content; an `HTTPError` with a 4xx code `break`s out
of the loop (skipping the sleep) so that `None` is returned with no further
request; every other error falls through to the sleep (skipped after the
final attempt) and the loop continues; exhausting the loop returns `None`. -/
def fetchUrlGo (backend : Nat → FetchCallResult) :
    Nat → Nat → List Nat → FetchOutcome
  | attempt, 0, sleeps => { result := none, attempts := attempt, sleeps := sleeps }
  | attempt, fuel + 1, sleeps =>
      match backend attempt with
      | .success content =>
          { result := some content, attempts := attempt + 1, sleeps := sleeps }
      | .httpError code =>
          if 400 ≤ code ∧ code < 500 then
            { result := none, attempts := attempt + 1, sleeps := sleeps }
          else
            fetchUrlGo backend (attempt + 1) fuel
              (if attempt < FETCH_MAX_RETRIES - 1 then
                 sleeps ++ [FETCH_BACKOFF_SECONDS.getD attempt 0]
               else sleeps)
      | .urlError =>
          fetchUrlGo backend (attempt + 1) fuel
            (if attempt < FETCH_MAX_RETRIES - 1 then
               sleeps ++ [FETCH_BACKOFF_SECONDS.getD attempt 0]
             else sleeps)
      | .otherError =>
          fetchUrlGo backend (attempt + 1) fuel
            (if attempt < FETCH_MAX_RETRIES - 1 then
               sleeps ++ [FETCH_BACKOFF_SECONDS.getD attempt 0]
             else sleeps)

/-- `WebFetcher.fetch_url` over a given backend behaviour. -/
def fetchUrl (backend : Nat → FetchCallResult) : FetchOutcome :=
  fetchUrlGo backend 0 FETCH_MAX_RETRIES []

/-- C9: a 4xx client error on the first attempt ends `fetch_url` at once —
one request, no sleep, `None` returned — while connection/timeout errors
(`URLError`) are retried up to 3 attempts with backoff sleeps of 1s then
2s before returning `None`. -/
theorem fetch_url_4xx_no_retry (backend : Nat → FetchCallResult) (code : Nat)
    (h4 : 400 ≤ code) (h5 : code < 500)
    (hfirst : backend 0 = .httpError code)
    (backend' : Nat → FetchCallResult)
    (hconn : ∀ i, i < 3 → backend' i = .urlError) :
    fetchUrl backend = { result := none, attempts := 1, sleeps := [] } ∧
    fetchUrl backend' = { result := none, attempts := 3, sleeps := [1, 2] } := by
  constructor
  · unfold fetchUrl FETCH_MAX_RETRIES fetchUrlGo
    rw [hfirst]
    simp [h4, h5]
  · unfold fetchUrl FETCH_MAX_RETRIES
    unfold fetchUrlGo
    rw [hconn 0 (by omega)]
    norm_num [FETCH_MAX_RETRIES, FETCH_BACKOFF_SECONDS]
    unfold fetchUrlGo
    rw [hconn 1 (by omega)]
    norm_num [FETCH_MAX_RETRIES, FETCH_BACKOFF_SECONDS]
    unfold fetchUrlGo
    rw [hconn 2 (by omega)]
    norm_num [FETCH_MAX_RETRIES, FETCH_BACKOFF_SECONDS]
    unfold fetchUrlGo
    rfl

/-- Witness for `fetch_url_4xx_no_retry`: a URL that answers 404, and a URL
whose connection always fails. -/
theorem fetch_url_4xx_no_retry_witness :
    fetchUrl (fun _ => .httpError 404) = { result := none, attempts := 1, sleeps := [] } ∧
    fetchUrl (fun _ => .urlError) = { result := none, attempts := 3, sleeps := [1, 2] } :=
  fetch_url_4xx_no_retry (fun _ => .httpError 404) 404 (by norm_num) (by norm_num) rfl
    (fun _ => .urlError) (fun _ _ => rfl)

/-! ## `_merge_transcripts` (`llm/context_builder.py`) -/

/-- The `"\n\n"` separator. -/
def nl2 : PyText := ['\n', '\n']

/-- `"--- Transcript N ---"` with `N` rendered in decimal. -/
def markerText (i : Nat) : PyText :=
  ("--- Transcript ").data ++ (Nat.repr i).data ++ (" ---").data

/-- The list-comprehension of `_merge_transcripts`: part `i` is the marker
for `i` followed by a blank line and the content, numbering from `k`. -/
def numberParts : Nat → List PyText → List PyText
  | _, [] => []
  | k, t :: rest => (markerText k ++ nl2 ++ t) :: numberParts (k + 1) rest

/-- `sep.join(parts)`. -/
def intercalateTexts (sep : PyText) : List PyText → PyText
  | [] => []
  | [t] => t
  | t :: rest => t ++ sep ++ intercalateTexts sep rest

/-- `ContextBuilder._merge_transcripts` on a list argument: strip each
entry, drop the falsy (empty) ones, return `""` for none, the sole entry
for one, and otherwise join the numbered parts with `"\n\n"`. -/
def mergeTranscripts (ts : List PyText) : PyText :=
  let nonEmpty := (ts.map stripText).filter (fun t => t ≠ [])
  if nonEmpty = [] then []
  else if nonEmpty.length = 1 then nonEmpty.headD []
  else intercalateTexts nl2 (numberParts 1 nonEmpty)

/-- `_merge_transcripts` on its `str | list[str]` argument: a plain string
is returned unchanged. -/
def mergeTranscriptArg : PyText ⊕ List PyText → PyText
  | .inl s => s
  | .inr l => mergeTranscripts l

/-- Length of one numbered part plus its marker/blank-line overhead. -/
def partLen (i : Nat) (s : PyText) : Nat :=
  (markerText i).length + 2 + s.length

/-- Start position of the `j`-th marker (numbering from `k`) inside the
merged text. -/
def posFun : Nat → List PyText → Nat → Nat
  | _, _, 0 => 0
  | _, [], _ + 1 => 0
  | k, s :: rest, j + 1 => partLen k s + 2 + posFun (k + 1) rest j

lemma intercalateTexts_cons (sep x : PyText) (l : List PyText) (h : l ≠ []) :
    intercalateTexts sep (x :: l) = x ++ sep ++ intercalateTexts sep l := by
  cases l with
  | nil => exact absurd rfl h
  | cons y ys => rfl

lemma markerText_len_pos (i : Nat) : 0 < (markerText i).length := by
  unfold markerText
  simp

/-- The marker of entry `j` (numbered from `k`), followed by the blank line
and the full entry, occurs at offset `posFun k ss j` of the merged text. -/
lemma merged_marker_at : ∀ (j : Nat) (ss : List PyText) (k : Nat) (hj : j < ss.length),
    (markerText (k + j) ++ nl2 ++ ss.get ⟨j, hj⟩) <+:
      (intercalateTexts nl2 (numberParts k ss)).drop (posFun k ss j) := by
  intro j
  induction j with
  | zero =>
      intro ss k hj
      match ss, hj with
      | s :: rest, _ =>
          simp only [posFun, List.drop_zero, numberParts, List.get]
          cases rest with
          | nil => simp [intercalateTexts, Nat.add_zero]
          | cons r rest' =>
              rw [intercalateTexts_cons _ _ _ (by simp [numberParts])]
              have hpre := List.prefix_append (markerText k ++ nl2 ++ s)
                (nl2 ++ intercalateTexts nl2 (numberParts (k + 1) (r :: rest')))
              simp only [Nat.add_zero, List.append_assoc] at hpre ⊢
              exact hpre
  | succ j ih =>
      intro ss k hj
      match ss, hj with
      | s :: rest, hj =>
          have hrest : rest ≠ [] := by
            intro hnil
            rw [hnil] at hj
            simp at hj
          have hjr : j < rest.length := by simpa using hj
          simp only [posFun, numberParts, List.get]
          rw [intercalateTexts_cons _ _ _ (by cases rest with
            | nil => exact absurd rfl hrest
            | cons a b => simp [numberParts])]
          have hlen : (markerText k ++ nl2 ++ s ++ nl2).length = partLen k s + 2 := by
            simp [partLen, nl2]
            omega
          have hdrop :
              ((markerText k ++ nl2 ++ s ++ nl2) ++
                  intercalateTexts nl2 (numberParts (k + 1) rest)).drop
                (partLen k s + 2 + posFun (k + 1) rest j)
              = (intercalateTexts nl2 (numberParts (k + 1) rest)).drop
                  (posFun (k + 1) rest j) := by
            rw [← hlen]
            exact List.drop_append _
          have hassoc :
              markerText k ++ nl2 ++ s ++ nl2 ++ intercalateTexts nl2 (numberParts (k + 1) rest)
              = (markerText k ++ nl2 ++ s ++ nl2) ++
                  intercalateTexts nl2 (numberParts (k + 1) rest) := by
            simp [List.append_assoc]
          rw [hassoc, hdrop]
          have := ih rest (k + 1) hjr
          have harith : k + 1 + j = k + (j + 1) := by omega
          rw [harith] at this
          exact this

/-- `posFun` advances by exactly the previous part's length plus the
joining blank line. -/
lemma posFun_succ_eq : ∀ (j : Nat) (ss : List PyText) (k : Nat) (hj : j + 1 < ss.length),
    posFun k ss (j + 1) = posFun k ss j + partLen (k + j) (ss.get ⟨j, by omega⟩) + 2 := by
  intro j
  induction j with
  | zero =>
      intro ss k hj
      match ss, hj with
      | s :: rest, _ =>
          simp only [posFun, List.get, Nat.add_zero]
          omega
  | succ j ih =>
      intro ss k hj
      match ss, hj with
      | s :: rest, hj =>
          have hjr : j + 1 < rest.length := by simpa using hj
          have := ih rest (k + 1) hjr
          simp only [posFun, List.get]
          rw [this]
          have : k + 1 + j = k + (j + 1) := by omega
          rw [this]
          omega

/-- Markers of later entries sit at strictly larger offsets. -/
lemma posFun_strict_mono : ∀ (j' j : Nat) (ss : List PyText) (k : Nat),
    j < j' → j' < ss.length → posFun k ss j < posFun k ss j' := by
  intro j'
  induction j' with
  | zero => intro j ss k hlt; omega
  | succ j' ih =>
      intro j ss k hlt hlen
      have hstep := posFun_succ_eq j' ss k hlen
      have hmarker := markerText_len_pos (k + j')
      rcases Nat.lt_or_ge j j' with hcase | hcase
      · have := ih j ss k hcase (by omega)
        rw [hstep]
        unfold partLen at *
        omega
      · have hj : j = j' := by omega
        subst hj
        rw [hstep]
        unfold partLen
        omega

lemma stripText_words_stable (ts : List PyText) (h : ∀ t ∈ ts, stripText t ≠ []) :
    (ts.map stripText).filter (fun t => t ≠ []) = ts.map stripText := by
  rw [List.filter_eq_self]
  intro a ha
  rw [List.mem_map] at ha
  obtain ⟨t, ht, rfl⟩ := ha
  simpa using h t ht

/-- C5 counterexample: `_merge_transcripts` on a single non-empty entry
with surrounding whitespace returns the stripped entry, not the entry
unmodified. -/
theorem merge_single_not_verbatim :
    mergeTranscripts [(" a ").data] = ("a").data ∧
    mergeTranscripts [(" a ").data] ≠ (" a ").data := by
  constructor
  · decide
  · decide

/-- C5 (amended): for a single entry containing a non-whitespace character,
`_merge_transcripts` returns the entry stripped of surrounding whitespace
and adds no marker; for `K ≥ 2` such entries, the merged text carries the
markers `--- Transcript 1 ---` … `--- Transcript K ---` at strictly
increasing offsets, each immediately followed by a blank line and the
corresponding entry stripped of surrounding whitespace, the entry ending
before the next marker begins. -/
theorem merge_markers_ordered :
    (∀ t : PyText, stripText t ≠ [] → mergeTranscripts [t] = stripText t) ∧
    (∀ ts : List PyText, (∀ t ∈ ts, stripText t ≠ []) → 2 ≤ ts.length →
      ∀ j (hj : j < (ts.map stripText).length),
        ((markerText (1 + j) ++ nl2 ++ (ts.map stripText).get ⟨j, hj⟩) <+:
            (mergeTranscripts ts).drop (posFun 1 (ts.map stripText) j)) ∧
        (∀ j' (_ : j' < (ts.map stripText).length), j < j' →
            posFun 1 (ts.map stripText) j < posFun 1 (ts.map stripText) j') ∧
        (∀ _ : j + 1 < (ts.map stripText).length,
            posFun 1 (ts.map stripText) j + (markerText (1 + j)).length + 2 +
              ((ts.map stripText).get ⟨j, hj⟩).length ≤
              posFun 1 (ts.map stripText) (j + 1))) := by
  constructor
  · intro t h
    unfold mergeTranscripts
    simp [h]
  · intro ts h hlen j hj
    have hfilter := stripText_words_stable ts h
    have hmerge : mergeTranscripts ts
        = intercalateTexts nl2 (numberParts 1 (ts.map stripText)) := by
      unfold mergeTranscripts
      rw [hfilter]
      rw [if_neg (by
        intro hnil
        have h0 := congrArg List.length hnil
        rw [List.length_map] at h0
        simp only [List.length_nil] at h0
        omega)]
      rw [if_neg (by
        intro h1
        rw [List.length_map] at h1
        omega)]
    refine ⟨?_, ?_, ?_⟩
    · rw [hmerge]
      exact merged_marker_at j (ts.map stripText) 1 hj
    · intro j' hj' hlt
      exact posFun_strict_mono j' j (ts.map stripText) 1 hlt hj'
    · intro hj1
      have := posFun_succ_eq j (ts.map stripText) 1 hj1
      rw [this]
      unfold partLen
      omega

/-- Witness for `merge_markers_ordered`: the two-entry list `["a", "b"]`,
checked at the first marker. -/
theorem merge_markers_ordered_witness :
    ((markerText (1 + 0) ++ nl2 ++
        (([("a").data, ("b").data].map stripText)).get ⟨0, by decide⟩) <+:
      (mergeTranscripts [("a").data, ("b").data]).drop
        (posFun 1 ([("a").data, ("b").data].map stripText) 0)) ∧
    (∀ j' (_ : j' < ([("a").data, ("b").data].map stripText).length), 0 < j' →
        posFun 1 ([("a").data, ("b").data].map stripText) 0 <
          posFun 1 ([("a").data, ("b").data].map stripText) j') ∧
    (∀ _ : 0 + 1 < ([("a").data, ("b").data].map stripText).length,
        posFun 1 ([("a").data, ("b").data].map stripText) 0 +
            (markerText (1 + 0)).length + 2 +
            (([("a").data, ("b").data].map stripText).get ⟨0, by decide⟩).length ≤
          posFun 1 ([("a").data, ("b").data].map stripText) (0 + 1)) :=
  merge_markers_ordered.2 [("a").data, ("b").data] (by decide) (by decide) 0 (by decide)

/-! ## `_truncate_to_budget` and the transcript part of `build_context` -/

/-- Python `str.rfind(char)`: index of the last occurrence, if any. -/
def rfindChar : PyText → Char → Option Nat
  | [], _ => none
  | c :: rest, target =>
      match rfindChar rest target with
      | some i => some (i + 1)
      | none => if c = target then some 0 else none

/-- The space-boundary and hard-cut fallbacks of `_truncate_to_budget`
(`pos = slice_.rfind(" "); if pos > 0: ...; return slice_, True`). -/
def truncSpaceFallback (sl : PyText) : PyText × Bool :=
  match rfindChar sl ' ' with
  | some p => if 0 < p then (sl.take p, true) else (sl, true)
  | none => (sl, true)

/-- `ContextBuilder._truncate_to_budget`: texts within budget pass through;
longer texts are cut to `max_chars` and then trimmed back to the last
newline with positive index, else the last space with positive index, else
hard-cut. -/
def truncateToBudget (t : PyText) (maxChars : Nat) : PyText × Bool :=
  if t.length ≤ maxChars then (t, false)
  else
    match rfindChar (t.take maxChars) '\n' with
    | some p =>
        if 0 < p then ((t.take maxChars).take p, true)
        else truncSpaceFallback (t.take maxChars)
    | none => truncSpaceFallback (t.take maxChars)

/-- Result of the transcript-handling part of `build_context`. -/
structure TranscriptSectionResult where
  sectionText : PyText
  transcript_included : Bool
  transcript_truncated : Bool
  transcript_original_tokens : Nat
deriving Repr

/-- The transcript path of `ContextBuilder.build_context` with no
summarizer supplied (lines 311–351 of `llm/context_builder.py`): merge,
strip, estimate, then — skipping the summarization branch — truncate to
`MAX_TRANSCRIPT_TOKENS * CHARS_PER_TOKEN` characters and prepend the
`## TRANSCRIPT` header.  An empty stripped transcript yields no section. -/
def buildTranscriptSection (transcript : PyText ⊕ List PyText) :
    TranscriptSectionResult :=
  if stripText (mergeTranscriptArg transcript) = [] then
    { sectionText := []
      transcript_included := false
      transcript_truncated := false
      transcript_original_tokens :=
        estimateTokens (stripText (mergeTranscriptArg transcript)) }
  else
    { sectionText := ("## TRANSCRIPT\n\n").data ++
        (truncateToBudget (stripText (mergeTranscriptArg transcript))
          (MAX_TRANSCRIPT_TOKENS * CHARS_PER_TOKEN)).1
      transcript_included := true
      transcript_truncated :=
        (truncateToBudget (stripText (mergeTranscriptArg transcript))
          (MAX_TRANSCRIPT_TOKENS * CHARS_PER_TOKEN)).2
      transcript_original_tokens :=
        estimateTokens (stripText (mergeTranscriptArg transcript)) }

lemma truncSpaceFallback_le (sl : PyText) :
    (truncSpaceFallback sl).1.length ≤ sl.length ∧ (truncSpaceFallback sl).2 = true := by
  unfold truncSpaceFallback
  cases h : rfindChar sl ' ' with
  | none => simp
  | some p =>
      by_cases hp : 0 < p
      · simp only [hp, if_true]
        refine ⟨?_, by simp⟩
        rw [List.length_take]
        omega
      · simp [hp]

/-- Over-budget texts are always cut to at most `maxChars` characters and
flagged as truncated. -/
lemma truncate_of_long (t : PyText) (maxChars : Nat) (h : maxChars < t.length) :
    (truncateToBudget t maxChars).1.length ≤ maxChars ∧
    (truncateToBudget t maxChars).2 = true := by
  unfold truncateToBudget
  rw [if_neg (by omega)]
  have hsl : (t.take maxChars).length ≤ maxChars := by
    rw [List.length_take]
    omega
  cases hfind : rfindChar (t.take maxChars) '\n' with
  | none =>
      have hf := truncSpaceFallback_le (t.take maxChars)
      exact ⟨le_trans hf.1 hsl, hf.2⟩
  | some p =>
      by_cases hp : 0 < p
      · simp only [hp, if_true]
        refine ⟨?_, by simp⟩
        calc (List.take p (t.take maxChars)).length
            ≤ (t.take maxChars).length := by
              rw [List.length_take, List.length_take]
              omega
          _ ≤ maxChars := hsl
      · simp only [hp, if_false]
        have hf := truncSpaceFallback_le (t.take maxChars)
        exact ⟨le_trans hf.1 hsl, hf.2⟩

/-- C4 (amended): with no summarizer, any transcript whose stripped text
estimates above `MAX_TRANSCRIPT_TOKENS` tokens is truncated
(`transcript_truncated = true`), the truncated transcript body is at most
`MAX_TRANSCRIPT_TOKENS * CHARS_PER_TOKEN = 96000` characters, and the full
assembled section is that body plus the 15-character
`"## TRANSCRIPT\n\n"` header, hence at most 96015 characters. -/
theorem transcript_budget_respected (transcript : PyText ⊕ List PyText)
    (h : MAX_TRANSCRIPT_TOKENS <
      estimateTokens (stripText (mergeTranscriptArg transcript))) :
    (buildTranscriptSection transcript).transcript_truncated = true ∧
    (∃ body : PyText,
        (buildTranscriptSection transcript).sectionText
          = ("## TRANSCRIPT\n\n").data ++ body ∧
        body.length ≤ MAX_TRANSCRIPT_TOKENS * CHARS_PER_TOKEN) ∧
    (buildTranscriptSection transcript).sectionText.length ≤
      MAX_TRANSCRIPT_TOKENS * CHARS_PER_TOKEN + 15 := by
  set stripped := stripText (mergeTranscriptArg transcript) with hstripped
  have hlen : MAX_TRANSCRIPT_TOKENS * CHARS_PER_TOKEN < stripped.length := by
    unfold estimateTokens at h
    unfold MAX_TRANSCRIPT_TOKENS at h ⊢
    unfold CHARS_PER_TOKEN
    omega
  have hne : stripped ≠ [] := by
    intro h0
    rw [h0] at hlen
    simp at hlen
  have htr := truncate_of_long stripped (MAX_TRANSCRIPT_TOKENS * CHARS_PER_TOKEN) hlen
  unfold buildTranscriptSection
  rw [← hstripped]
  rw [if_neg hne]
  refine ⟨htr.2, ⟨_, rfl, htr.1⟩, ?_⟩
  rw [List.length_append]
  have : (("## TRANSCRIPT\n\n").data).length = 15 := by decide
  omega

lemma rfindChar_append (l₁ l₂ : PyText) (c : Char) :
    rfindChar (l₁ ++ l₂) c =
      match rfindChar l₂ c with
      | some i => some (l₁.length + i)
      | none => rfindChar l₁ c := by
  induction l₁ with
  | nil =>
      rw [List.nil_append]
      cases rfindChar l₂ c with
      | some i => simp
      | none => rfl
  | cons x xs ih =>
      have hstep : rfindChar ((x :: xs) ++ l₂) c
          = match rfindChar (xs ++ l₂) c with
            | some i => some (i + 1)
            | none => if x = c then some 0 else none := rfl
      rw [hstep, ih]
      cases h₂ : rfindChar l₂ c with
      | some i =>
          show some (xs.length + i + 1) = some ((x :: xs).length + i)
          simp only [List.length_cons]
          congr 1
          omega
      | none =>
          show (match rfindChar xs c with
            | some i => some (i + 1)
            | none => if x = c then some 0 else none) = rfindChar (x :: xs) c
          rfl

lemma rfindChar_replicate (n : Nat) (a c : Char) (h : a ≠ c) :
    rfindChar (List.replicate n a) c = none := by
  induction n with
  | zero => rfl
  | succ n ih => simp [List.replicate_succ, rfindChar, ih, h]

/-- The over-budget transcript used against C4: 95998 `a`s, a newline, ten
`b`s — 96009 characters, estimating to 24002 tokens. -/
def cex4 : PyText := List.replicate 95998 'a' ++ '\n' :: List.replicate 10 'b'

lemma cex4_cons :
    cex4 = 'a' :: (List.replicate 95997 'a' ++ '\n' :: List.replicate 10 'b') := by
  unfold cex4
  rw [show (95998 : Nat) = 95997 + 1 from rfl, List.replicate_succ, List.cons_append]

lemma cex4_length : cex4.length = 96009 := by
  unfold cex4
  rw [List.length_append, List.length_replicate, List.length_cons, List.length_replicate]

lemma cex4_ne_nil : cex4 ≠ [] := by
  intro h0
  have hlen := congrArg List.length h0
  rw [cex4_length] at hlen
  exact absurd hlen (by norm_num)

lemma cex4_reverse : cex4.reverse
    = 'b' :: (List.replicate 9 'b' ++ '\n' :: List.replicate 95998 'a') := by
  unfold cex4
  rw [List.reverse_append, List.reverse_cons, List.reverse_replicate, List.reverse_replicate]
  rw [show (10 : Nat) = 9 + 1 from rfl, List.replicate_succ, List.cons_append,
    List.cons_append, List.append_assoc, List.singleton_append]

lemma cex4_strip : stripText cex4 = cex4 := by
  unfold stripText
  have h1 : cex4.dropWhile isSpaceChar = cex4 := by
    rw [cex4_cons, List.dropWhile_cons, if_neg (by decide)]
  have h2 : cex4.reverse.dropWhile isSpaceChar = cex4.reverse := by
    rw [cex4_reverse, List.dropWhile_cons, if_neg (by decide)]
  rw [h1, h2, List.reverse_reverse]

lemma cex4_take : cex4.take 96000
    = List.replicate 95998 'a' ++ '\n' :: List.replicate 1 'b' := by
  unfold cex4
  rw [List.take_append_eq_append_take]
  rw [List.take_of_length_le (by rw [List.length_replicate]; norm_num)]
  rw [List.length_replicate]
  rw [show (96000 - 95998 : Nat) = 2 from rfl]
  rw [show (2 : Nat) = 1 + 1 from rfl, List.take_succ_cons, List.take_replicate]
  rw [show min 1 10 = 1 from rfl]

lemma cex4_rfind :
    rfindChar (cex4.take 96000) '\n' = some 95998 := by
  rw [cex4_take, rfindChar_append]
  rw [show rfindChar ('\n' :: List.replicate 1 'b') '\n' = some 0 from by decide]
  show some ((List.replicate 95998 'a').length + 0) = some 95998
  rw [List.length_replicate]

lemma cex4_truncate :
    truncateToBudget cex4 96000 = (List.replicate 95998 'a', true) := by
  unfold truncateToBudget
  rw [if_neg (by rw [cex4_length]; omega)]
  rw [cex4_rfind]
  show (if 0 < 95998 then ((cex4.take 96000).take 95998, true)
        else truncSpaceFallback (cex4.take 96000)) = (List.replicate 95998 'a', true)
  rw [if_pos (by omega)]
  rw [cex4_take]
  rw [List.take_append_eq_append_take]
  rw [List.take_of_length_le (by rw [List.length_replicate])]
  rw [List.length_replicate]
  rw [show (95998 - 95998 : Nat) = 0 from rfl, List.take_zero, List.append_nil]

lemma estimateTokens_eq (t : PyText) (n : Nat) (h : t.length = n) :
    estimateTokens t = n / 4 := by
  unfold estimateTokens
  rw [h]

lemma cex4_tokens : estimateTokens cex4 = 24002 :=
  Eq.trans (estimateTokens_eq cex4 96009 cex4_length) (by norm_num)

/-- C4 counterexample: for this transcript the stripped text estimates to
24002 tokens (over `MAX_TRANSCRIPT_TOKENS`), yet the assembled transcript
section is 96013 characters long — more than
`MAX_TRANSCRIPT_TOKENS * CHARS_PER_TOKEN = 96000` — because the 15-character
`## TRANSCRIPT` header sits on top of the 96000-character body budget. -/
theorem transcript_section_over_budget :
    MAX_TRANSCRIPT_TOKENS <
      (buildTranscriptSection (Sum.inl cex4)).transcript_original_tokens ∧
    MAX_TRANSCRIPT_TOKENS * CHARS_PER_TOKEN <
      (buildTranscriptSection (Sum.inl cex4)).sectionText.length ∧
    (buildTranscriptSection (Sum.inl cex4)).transcript_truncated = true := by
  have hbuild : buildTranscriptSection (Sum.inl cex4) =
      { sectionText := ("## TRANSCRIPT\n\n").data ++ List.replicate 95998 'a'
        transcript_included := true
        transcript_truncated := true
        transcript_original_tokens := 24002 } := by
    unfold buildTranscriptSection
    rw [show mergeTranscriptArg (Sum.inl cex4) = cex4 from rfl, cex4_strip,
      if_neg cex4_ne_nil]
    rw [show MAX_TRANSCRIPT_TOKENS * CHARS_PER_TOKEN = 96000 from rfl, cex4_truncate,
      cex4_tokens]
  rw [hbuild]
  refine ⟨by norm_num [MAX_TRANSCRIPT_TOKENS], ?_, rfl⟩
  show MAX_TRANSCRIPT_TOKENS * CHARS_PER_TOKEN <
      (("## TRANSCRIPT\n\n").data ++ List.replicate 95998 'a').length
  rw [List.length_append, List.length_replicate,
    show (("## TRANSCRIPT\n\n").data).length = 15 from by decide]
  norm_num [MAX_TRANSCRIPT_TOKENS, CHARS_PER_TOKEN]

/-- Witness for `transcript_budget_respected`: the same over-budget
transcript `cex4`. -/
theorem transcript_budget_respected_witness :
    (buildTranscriptSection (Sum.inl cex4)).transcript_truncated = true ∧
    (∃ body : PyText,
        (buildTranscriptSection (Sum.inl cex4)).sectionText
          = ("## TRANSCRIPT\n\n").data ++ body ∧
        body.length ≤ MAX_TRANSCRIPT_TOKENS * CHARS_PER_TOKEN) ∧
    (buildTranscriptSection (Sum.inl cex4)).sectionText.length ≤
      MAX_TRANSCRIPT_TOKENS * CHARS_PER_TOKEN + 15 :=
  transcript_budget_respected (Sum.inl cex4) (by
    have hE : estimateTokens (stripText (mergeTranscriptArg (Sum.inl cex4))) = 24002 := by
      rw [show mergeTranscriptArg (Sum.inl cex4) = cex4 from rfl, cex4_strip]
      exact cex4_tokens
    rw [hE]
    norm_num [MAX_TRANSCRIPT_TOKENS])

/-! ## `chunk_text` and its helpers (`llm/context_builder.py`) -/

/-- Helper for `text.split("\n\n")`: leftmost, non-overlapping split on the
two-newline separator, keeping empty segments (as `str.split(sep)` does). -/
def splitNl2Aux : PyText → PyText → List PyText
  | [], acc => [acc.reverse]
  | [c], acc => [(c :: acc).reverse]
  | c1 :: c2 :: rest, acc =>
      if c1 = '\n' ∧ c2 = '\n' then acc.reverse :: splitNl2Aux rest []
      else splitNl2Aux (c2 :: rest) (c1 :: acc)

/-- `text.split("\n\n")`. -/
def splitNl2 (t : PyText) : List PyText := splitNl2Aux t []

/-- Sentence-terminating characters of the `(?<=[.!?])\s+` pattern. -/
def isSentEnd (c : Char) : Bool := c = '.' ∨ c = '?' ∨ c = '!'

/-- Whether the character most recently added to the current segment is a
sentence terminator (the regex lookbehind). -/
def headIsSentEnd : PyText → Bool
  | [] => false
  | p :: _ => isSentEnd p

/-- Helper for `re.split(r"(?<=[.!?])\s+", text)`: scan left to right,
splitting at each maximal whitespace run that follows `.`/`?`/`!`.  The
`Bool` flag records that the scanner is inside such a run (consuming its
remaining whitespace). -/
def splitSentencesAux : PyText → PyText → Bool → List PyText
  | [], acc, _ => [acc.reverse]
  | c :: rest, acc, true =>
      if isSpaceChar c then splitSentencesAux rest acc true
      else splitSentencesAux rest [c] false
  | c :: rest, acc, false =>
      if isSpaceChar c ∧ headIsSentEnd acc then
        acc.reverse :: splitSentencesAux rest [] true
      else splitSentencesAux rest (c :: acc) false

/-- `re.split(r"(?<=[.!?])\s+", text)`. -/
def splitSentences (t : PyText) : List PyText := splitSentencesAux t [] false

/-- The loop of `_split_by_words`: greedily pack words into chunks of at
most `maxTokens` estimated tokens (separator counted as 1), truncating a
single word that alone exceeds the budget to `max_tokens * 4` characters. -/
def splitByWordsLoop (maxTokens : Nat) :
    List PyText → List PyText → Nat → List PyText → List PyText
  | [], currentWords, _, chunks =>
      chunks ++ (if currentWords = [] then []
                 else [intercalateTexts [' '] currentWords])
  | w :: ws, currentWords, currentTokens, chunks =>
      if maxTokens < countTokens w then
        splitByWordsLoop maxTokens ws [] 0
          ((chunks ++ (if currentWords = [] then []
                       else [intercalateTexts [' '] currentWords]))
            ++ [w.take (maxTokens * 4)])
      else
        if maxTokens <
            currentTokens + (if currentWords = [] then 0 else 1) + countTokens w then
          splitByWordsLoop maxTokens ws [w] (countTokens w)
            (chunks ++ (if currentWords = [] then []
                        else [intercalateTexts [' '] currentWords]))
        else
          splitByWordsLoop maxTokens ws (currentWords ++ [w])
            (currentTokens + (if currentWords = [] then 0 else 1) + countTokens w)
            chunks

/-- `_split_by_words`. -/
def splitByWords (t : PyText) (maxTokens : Nat) : List PyText :=
  if wordsOf t = [] then [] else splitByWordsLoop maxTokens (wordsOf t) [] 0 []

/-- The sentence loop of `_split_large_block`: strip each sentence, skip
empty ones, send an oversized sentence through `_split_by_words`, and
otherwise pack greedily (separator counted as 1). -/
def splitLargeBlockLoop (maxTokens : Nat) :
    List PyText → List PyText → Nat → List PyText → List PyText
  | [], current, _, chunks =>
      chunks ++ (if current = [] then [] else [intercalateTexts [' '] current])
  | s :: rest, current, tokens, chunks =>
      if stripText s = [] then splitLargeBlockLoop maxTokens rest current tokens chunks
      else
        if maxTokens < countTokens (stripText s) then
          splitLargeBlockLoop maxTokens rest [] 0
            ((chunks ++ (if current = [] then []
                         else [intercalateTexts [' '] current]))
              ++ splitByWords (stripText s) maxTokens)
        else
          if maxTokens <
              tokens + (if current = [] then 0 else 1) + countTokens (stripText s) then
            splitLargeBlockLoop maxTokens rest [stripText s] (countTokens (stripText s))
              (chunks ++ (if current = [] then []
                          else [intercalateTexts [' '] current]))
          else
            splitLargeBlockLoop maxTokens rest (current ++ [stripText s])
              (tokens + (if current = [] then 0 else 1) + countTokens (stripText s))
              chunks

/-- `_split_large_block`: split at sentence boundaries when there are at
least two sentences, else fall back to word splitting. -/
def splitLargeBlock (t : PyText) (maxTokens : Nat) : List PyText :=
  if 1 < (splitSentences t).length then
    splitLargeBlockLoop maxTokens (splitSentences t) [] 0 []
  else splitByWords t maxTokens

/-- The paragraph loop of `chunk_text`: strip each paragraph, skip empty
ones, send an oversized paragraph through `_split_large_block`, and
otherwise pack greedily, counting the `"\n\n"` separator at its estimated
token cost. -/
def chunkParaLoop (maxTokens : Nat) :
    List PyText → List PyText → Nat → List PyText → List PyText
  | [], current, _, chunks =>
      chunks ++ (if current = [] then [] else [intercalateTexts nl2 current])
  | p :: rest, current, tokens, chunks =>
      if stripText p = [] then chunkParaLoop maxTokens rest current tokens chunks
      else
        if maxTokens < countTokens (stripText p) then
          chunkParaLoop maxTokens rest [] 0
            ((chunks ++ (if current = [] then []
                         else [intercalateTexts nl2 current]))
              ++ splitLargeBlock (stripText p) maxTokens)
        else
          if maxTokens <
              tokens + (if current = [] then 0 else countTokens nl2) +
                countTokens (stripText p) then
            chunkParaLoop maxTokens rest [stripText p] (countTokens (stripText p))
              (chunks ++ (if current = [] then []
                          else [intercalateTexts nl2 current]))
          else
            chunkParaLoop maxTokens rest (current ++ [stripText p])
              (tokens + (if current = [] then 0 else countTokens nl2) +
                countTokens (stripText p))
              chunks

/-- `chunk_text(text, max_tokens)`: empty text or a non-positive budget
yields no chunks; text already within budget is the single chunk; larger
text is split at paragraph boundaries (then sentences, then words). -/
def chunkText (t : PyText) (maxTokens : Nat) : List PyText :=
  if t = [] ∨ maxTokens = 0 then []
  else if countTokens t ≤ maxTokens then [t]
  else chunkParaLoop maxTokens (splitNl2 t) [] 0 []

lemma wordsAux_append_space (c : Char) (hc : isSpaceChar c = true) :
    ∀ (a b acc : PyText),
      wordsAux (a ++ c :: b) acc = wordsAux a acc ++ wordsAux b [] := by
  intro a
  induction a with
  | nil =>
      intro b acc
      rw [List.nil_append]
      by_cases hacc : acc = []
      · subst hacc
        simp only [wordsAux, hc, if_true, if_pos rfl, List.nil_append]
      · simp only [wordsAux, hc, if_true, if_neg hacc]
        rfl
  | cons x xs ih =>
      intro b acc
      rw [List.cons_append]
      by_cases hx : isSpaceChar x = true
      · by_cases hacc : acc = []
        · simp only [wordsAux, hx, if_true, if_pos hacc]
          exact ih b []
        · simp only [wordsAux, hx, if_true, if_neg hacc]
          rw [ih b []]
          rfl
      · simp only [wordsAux, hx, Bool.false_eq_true, if_false]
        exact ih b (x :: acc)

lemma wordsOf_append_space (c : Char) (hc : isSpaceChar c = true) (a b : PyText) :
    wordsOf (a ++ c :: b) = wordsOf a ++ wordsOf b := by
  unfold wordsOf
  exact wordsAux_append_space c hc a b []

lemma wordsOf_cons_space (c : Char) (hc : isSpaceChar c = true) (b : PyText) :
    wordsOf (c :: b) = wordsOf b := by
  have := wordsOf_append_space c hc [] b
  simpa [wordsOf, wordsAux] using this

lemma wordsOf_join_space (l : List PyText) :
    wordsOf (intercalateTexts [' '] l) = l.flatMap wordsOf := by
  induction l with
  | nil => rfl
  | cons t rest ih =>
      cases rest with
      | nil => simp [intercalateTexts]
      | cons r rest' =>
          rw [intercalateTexts_cons _ _ _ (by simp)]
          rw [List.append_assoc, List.singleton_append]
          rw [wordsOf_append_space ' ' (by decide)]
          rw [ih]
          simp

lemma wordsOf_join_nl2 (l : List PyText) :
    wordsOf (intercalateTexts nl2 l) = l.flatMap wordsOf := by
  induction l with
  | nil => rfl
  | cons t rest ih =>
      cases rest with
      | nil => simp [intercalateTexts]
      | cons r rest' =>
          rw [intercalateTexts_cons _ _ _ (by simp)]
          rw [List.append_assoc]
          rw [show nl2 ++ intercalateTexts nl2 (r :: rest')
              = '\n' :: '\n' :: intercalateTexts nl2 (r :: rest') from rfl]
          rw [wordsOf_append_space '\n' (by decide)]
          rw [wordsOf_cons_space '\n' (by decide)]
          rw [ih]
          simp

lemma words_le_countTokens (t : PyText) : (wordsOf t).length ≤ countTokens t := by
  unfold countTokens
  omega

lemma wordsAux_all_space (sp : PyText) (hsp : ∀ c ∈ sp, isSpaceChar c = true) :
    ∀ acc, wordsAux sp acc = if acc = [] then [] else [acc.reverse] := by
  induction sp with
  | nil => intro acc; rfl
  | cons c sp' ih =>
      intro acc
      have hc : isSpaceChar c = true := hsp c (by simp)
      have hsp' : ∀ x ∈ sp', isSpaceChar x = true := fun x hx => hsp x (by simp [hx])
      by_cases hacc : acc = []
      · simp only [wordsAux, hc, if_true, if_pos hacc]
        rw [ih hsp' []]
        rfl
      · simp only [wordsAux, hc, if_true, if_neg hacc]
        rw [ih hsp' []]
        rfl

lemma wordsAux_append_all_space (sp : PyText) (hsp : ∀ c ∈ sp, isSpaceChar c = true) :
    ∀ (t acc : PyText), wordsAux (t ++ sp) acc = wordsAux t acc := by
  intro t
  induction t with
  | nil =>
      intro acc
      rw [List.nil_append, wordsAux_all_space sp hsp acc]
      rfl
  | cons x xs ih =>
      intro acc
      rw [List.cons_append]
      by_cases hx : isSpaceChar x = true
      · by_cases hacc : acc = []
        · simp only [wordsAux, hx, if_true, if_pos hacc]
          exact ih []
        · simp only [wordsAux, hx, if_true, if_neg hacc]
          rw [ih []]
      · simp only [wordsAux, hx, Bool.false_eq_true, if_false]
        exact ih (x :: acc)

lemma wordsOf_dropWhile_space (t : PyText) :
    wordsOf (t.dropWhile isSpaceChar) = wordsOf t := by
  induction t with
  | nil => rfl
  | cons c rest ih =>
      rw [List.dropWhile_cons]
      by_cases hc : isSpaceChar c
      · rw [if_pos hc, ih, wordsOf_cons_space c hc]
      · rw [if_neg hc]

lemma wordsOf_stripText (t : PyText) : wordsOf (stripText t) = wordsOf t := by
  unfold stripText
  rw [← wordsOf_dropWhile_space t]
  set d := t.dropWhile isSpaceChar with hd
  have hsplit : d = (d.reverse.dropWhile isSpaceChar).reverse ++
      (d.reverse.takeWhile isSpaceChar).reverse := by
    have h1 : d.reverse = d.reverse.takeWhile isSpaceChar ++
        d.reverse.dropWhile isSpaceChar :=
      (List.takeWhile_append_dropWhile isSpaceChar d.reverse).symm
    calc d = d.reverse.reverse := (List.reverse_reverse d).symm
      _ = (d.reverse.takeWhile isSpaceChar ++ d.reverse.dropWhile isSpaceChar).reverse := by
            rw [← h1]
      _ = (d.reverse.dropWhile isSpaceChar).reverse ++
            (d.reverse.takeWhile isSpaceChar).reverse := by
            rw [List.reverse_append]
  have hsp : ∀ c ∈ (d.reverse.takeWhile isSpaceChar).reverse, isSpaceChar c = true := by
    intro c hc
    rw [List.mem_reverse] at hc
    exact List.mem_takeWhile_imp hc
  conv_rhs => rw [hsplit]
  unfold wordsOf
  rw [wordsAux_append_all_space _ hsp]

lemma wordsAux_no_space (w : PyText) (hw : ∀ c ∈ w, isSpaceChar c = false) :
    ∀ acc, wordsAux w acc =
      if acc.reverse ++ w = [] then [] else [acc.reverse ++ w] := by
  induction w with
  | nil =>
      intro acc
      by_cases hacc : acc = []
      · subst hacc; rfl
      · simp only [wordsAux, if_neg hacc, List.append_nil]
        rw [if_neg (by simp [hacc])]
  | cons c w' ih =>
      intro acc
      have hc : isSpaceChar c = false := hw c (by simp)
      have hw' : ∀ x ∈ w', isSpaceChar x = false := fun x hx => hw x (by simp [hx])
      simp only [wordsAux, hc, Bool.false_eq_true, if_false]
      rw [ih hw' (c :: acc)]
      rw [if_neg (by simp), if_neg (by simp)]
      rw [List.reverse_cons, List.append_assoc, List.singleton_append]

lemma wordsOf_word (w : PyText) (hne : w ≠ [])
    (hw : ∀ c ∈ w, isSpaceChar c = false) : wordsOf w = [w] := by
  unfold wordsOf
  rw [wordsAux_no_space w hw []]
  simp [hne]

lemma countTokens_word (w : PyText) (hne : w ≠ [])
    (hw : ∀ c ∈ w, isSpaceChar c = false) : countTokens w = 1 := by
  unfold countTokens
  rw [wordsOf_word w hne hw, List.length_singleton]

lemma mem_wordsAux (t : PyText) :
    ∀ (acc w : PyText), (∀ c ∈ acc, isSpaceChar c = false) →
      w ∈ wordsAux t acc → w ≠ [] ∧ ∀ c ∈ w, isSpaceChar c = false := by
  induction t with
  | nil =>
      intro acc w hacc hw
      by_cases h : acc = []
      · subst h; simp [wordsAux] at hw
      · simp only [wordsAux, if_neg h, List.mem_singleton] at hw
        subst hw
        refine ⟨by simpa using h, ?_⟩
        intro c hc
        exact hacc c (by simpa using hc)
  | cons x xs ih =>
      intro acc w hacc hw
      by_cases hx : isSpaceChar x = true
      · by_cases h : acc = []
        · rw [h] at hw
          simp only [wordsAux, hx, if_true, if_pos rfl] at hw
          exact ih [] w (by simp) hw
        · simp only [wordsAux, hx, if_true, if_neg h, List.mem_cons] at hw
          rcases hw with hw | hw
          · subst hw
            refine ⟨by simpa using h, ?_⟩
            intro c hc
            exact hacc c (by simpa using hc)
          · exact ih [] w (by simp) hw
      · simp only [wordsAux, hx, Bool.false_eq_true, if_false] at hw
        refine ih (x :: acc) w ?_ hw
        intro c hc
        rcases List.mem_cons.mp hc with hc | hc
        · subst hc
          simpa using hx
        · exact hacc c hc

lemma mem_wordsOf (t w : PyText) (hw : w ∈ wordsOf t) :
    w ≠ [] ∧ ∀ c ∈ w, isSpaceChar c = false :=
  mem_wordsAux t [] w (by simp) hw

lemma splitSentencesAux_words (t : PyText) :
    (∀ acc, (splitSentencesAux t acc false).flatMap wordsOf
        = wordsOf (acc.reverse ++ t)) ∧
    ((splitSentencesAux t [] true).flatMap wordsOf = wordsOf t) := by
  induction t with
  | nil =>
      constructor
      · intro acc
        simp [splitSentencesAux, wordsOf]
      · simp [splitSentencesAux, wordsOf, wordsAux]
  | cons c rest ih =>
      constructor
      · intro acc
        by_cases hcond : isSpaceChar c = true ∧ headIsSentEnd acc = true
        · simp only [splitSentencesAux, if_pos hcond, List.flatMap_cons]
          rw [ih.2]
          rw [wordsOf_append_space c hcond.1]
        · simp only [splitSentencesAux, if_neg hcond]
          rw [ih.1 (c :: acc)]
          rw [List.reverse_cons, List.append_assoc, List.singleton_append]
      · by_cases hc : isSpaceChar c = true
        · simp only [splitSentencesAux, hc, if_true]
          rw [ih.2, wordsOf_cons_space c hc]
        · simp only [splitSentencesAux, hc, Bool.false_eq_true, if_false]
          rw [ih.1 [c]]
          rfl

lemma splitSentences_words (t : PyText) :
    (splitSentences t).flatMap wordsOf = wordsOf t := by
  unfold splitSentences
  rw [(splitSentencesAux_words t).1 []]
  rfl

lemma splitNl2Aux_ne_nil : ∀ (t acc : PyText), splitNl2Aux t acc ≠ [] := by
  intro t acc
  induction t, acc using splitNl2Aux.induct with
  | case1 acc => simp [splitNl2Aux]
  | case2 c acc => simp [splitNl2Aux]
  | case3 c1 c2 rest acc h ih => simp [splitNl2Aux, h]
  | case4 c1 c2 rest acc h ih => simpa [splitNl2Aux, h] using ih

lemma splitNl2Aux_join : ∀ (t acc : PyText),
    intercalateTexts nl2 (splitNl2Aux t acc) = acc.reverse ++ t := by
  intro t acc
  induction t, acc using splitNl2Aux.induct with
  | case1 acc => simp [splitNl2Aux, intercalateTexts]
  | case2 c acc => simp [splitNl2Aux, intercalateTexts]
  | case3 c1 c2 rest acc h ih =>
      obtain ⟨h1, h2⟩ := h
      subst h1
      subst h2
      simp only [splitNl2Aux]
      rw [if_pos (by simp)]
      rw [intercalateTexts_cons _ _ _ (splitNl2Aux_ne_nil rest [])]
      rw [List.append_assoc]
      rw [ih]
      rfl
  | case4 c1 c2 rest acc h ih =>
      simp only [splitNl2Aux, if_neg h]
      rw [ih]
      simp

lemma splitNl2_join (t : PyText) : intercalateTexts nl2 (splitNl2 t) = t :=
  splitNl2Aux_join t []

lemma splitNl2_words (t : PyText) : (splitNl2 t).flatMap wordsOf = wordsOf t := by
  conv_rhs => rw [← splitNl2_join t]
  rw [wordsOf_join_nl2]

lemma splitByWordsLoop_bound (max : Nat) (hmax : 0 < max) :
    ∀ (ws current : List PyText) (tokens : Nat) (chunks : List PyText),
      (∀ w ∈ ws, w ≠ [] ∧ ∀ c ∈ w, isSpaceChar c = false) →
      (current.flatMap wordsOf).length ≤ tokens →
      tokens ≤ max →
      (∀ ch ∈ chunks, (wordsOf ch).length ≤ max) →
      ∀ ch ∈ splitByWordsLoop max ws current tokens chunks,
        (wordsOf ch).length ≤ max := by
  intro ws
  induction ws with
  | nil =>
      intro current tokens chunks _ hcur htok hch ch hmem
      simp only [splitByWordsLoop] at hmem
      rw [List.mem_append] at hmem
      rcases hmem with hmem | hmem
      · exact hch ch hmem
      · by_cases hc : current = []
        · simp [hc] at hmem
        · simp only [if_neg hc, List.mem_singleton] at hmem
          subst hmem
          rw [wordsOf_join_space]
          omega
  | cons w ws ih =>
      intro current tokens chunks hws hcur htok hch ch hmem
      obtain ⟨hwne, hwns⟩ := hws w (by simp)
      have hw1 : countTokens w = 1 := countTokens_word w hwne hwns
      have hws' : ∀ x ∈ ws, x ≠ [] ∧ ∀ c ∈ x, isSpaceChar c = false :=
        fun x hx => hws x (by simp [hx])
      simp only [splitByWordsLoop, hw1] at hmem
      rw [if_neg (by omega)] at hmem
      by_cases hguard : max < tokens + (if current = [] then 0 else 1) + 1
      · rw [if_pos hguard] at hmem
        refine ih [w] 1
          (chunks ++ if current = [] then [] else [intercalateTexts [' '] current])
          hws' ?_ hmax ?_ ch hmem
        · rw [List.flatMap_cons, List.flatMap_nil, List.append_nil,
            wordsOf_word w hwne hwns]
          simp
        · intro x hx
          rw [List.mem_append] at hx
          rcases hx with hx | hx
          · exact hch x hx
          · by_cases hc : current = []
            · simp [hc] at hx
            · simp only [if_neg hc, List.mem_singleton] at hx
              subst hx
              rw [wordsOf_join_space]
              omega
      · rw [if_neg hguard] at hmem
        refine ih (current ++ [w]) (tokens + (if current = [] then 0 else 1) + 1)
          chunks hws' ?_ (by omega) hch ch hmem
        rw [List.flatMap_append, List.length_append, List.flatMap_cons,
          List.flatMap_nil, List.append_nil, wordsOf_word w hwne hwns,
          List.length_singleton]
        omega

lemma splitByWordsLoop_words (max : Nat) (hmax : 0 < max) :
    ∀ (ws current : List PyText) (tokens : Nat) (chunks : List PyText),
      (∀ w ∈ ws, w ≠ [] ∧ ∀ c ∈ w, isSpaceChar c = false) →
      (splitByWordsLoop max ws current tokens chunks).flatMap wordsOf
        = chunks.flatMap wordsOf ++ current.flatMap wordsOf ++ ws := by
  intro ws
  induction ws with
  | nil =>
      intro current tokens chunks _
      simp only [splitByWordsLoop]
      rw [List.flatMap_append]
      by_cases hc : current = []
      · simp [hc]
      · simp only [if_neg hc]
        rw [List.flatMap_cons, List.flatMap_nil, List.append_nil,
          wordsOf_join_space, List.append_nil]
  | cons w ws ih =>
      intro current tokens chunks hws
      obtain ⟨hwne, hwns⟩ := hws w (by simp)
      have hw1 : countTokens w = 1 := countTokens_word w hwne hwns
      have hws' : ∀ x ∈ ws, x ≠ [] ∧ ∀ c ∈ x, isSpaceChar c = false :=
        fun x hx => hws x (by simp [hx])
      simp only [splitByWordsLoop, hw1]
      rw [if_neg (by omega)]
      by_cases hguard : max < tokens + (if current = [] then 0 else 1) + 1
      · rw [if_pos hguard]
        rw [ih [w] 1 _ hws']
        rw [List.flatMap_append, List.flatMap_cons, List.flatMap_nil,
          List.append_nil, wordsOf_word w hwne hwns]
        by_cases hc : current = []
        · simp [hc]
        · simp only [if_neg hc]
          rw [List.flatMap_cons, List.flatMap_nil, List.append_nil,
            wordsOf_join_space]
          simp [List.append_assoc]
      · rw [if_neg hguard]
        rw [ih (current ++ [w]) _ chunks hws']
        rw [List.flatMap_append, List.flatMap_cons, List.flatMap_nil,
          List.append_nil, wordsOf_word w hwne hwns]
        simp [List.append_assoc]

lemma splitByWords_bound (t : PyText) (max : Nat) (hmax : 0 < max) :
    ∀ ch ∈ splitByWords t max, (wordsOf ch).length ≤ max := by
  intro ch hmem
  unfold splitByWords at hmem
  by_cases h : wordsOf t = []
  · simp [h] at hmem
  · rw [if_neg h] at hmem
    exact splitByWordsLoop_bound max hmax (wordsOf t) [] 0 []
      (fun w hw => mem_wordsOf t w hw) (by simp) (by omega) (by simp) ch hmem

lemma splitByWords_words (t : PyText) (max : Nat) (hmax : 0 < max) :
    (splitByWords t max).flatMap wordsOf = wordsOf t := by
  unfold splitByWords
  by_cases h : wordsOf t = []
  · simp [h]
  · rw [if_neg h]
    rw [splitByWordsLoop_words max hmax (wordsOf t) [] 0 []
      (fun w hw => mem_wordsOf t w hw)]
    simp

lemma splitLargeBlockLoop_bound (max : Nat) (hmax : 0 < max) :
    ∀ (sents current : List PyText) (tokens : Nat) (chunks : List PyText),
      (current.flatMap wordsOf).length ≤ tokens →
      tokens ≤ max →
      (∀ ch ∈ chunks, (wordsOf ch).length ≤ max) →
      ∀ ch ∈ splitLargeBlockLoop max sents current tokens chunks,
        (wordsOf ch).length ≤ max := by
  intro sents
  induction sents with
  | nil =>
      intro current tokens chunks hcur htok hch ch hmem
      simp only [splitLargeBlockLoop] at hmem
      rw [List.mem_append] at hmem
      rcases hmem with hmem | hmem
      · exact hch ch hmem
      · by_cases hc : current = []
        · simp [hc] at hmem
        · simp only [if_neg hc, List.mem_singleton] at hmem
          subst hmem
          rw [wordsOf_join_space]
          omega
  | cons s rest ih =>
      intro current tokens chunks hcur htok hch ch hmem
      simp only [splitLargeBlockLoop] at hmem
      by_cases hempty : stripText s = []
      · rw [if_pos hempty] at hmem
        exact ih current tokens chunks hcur htok hch ch hmem
      · rw [if_neg hempty] at hmem
        by_cases hbig : max < countTokens (stripText s)
        · rw [if_pos hbig] at hmem
          refine ih [] 0
            ((chunks ++ if current = [] then []
              else [intercalateTexts [' '] current])
              ++ splitByWords (stripText s) max)
            (by simp) (by omega) ?_ ch hmem
          intro x hx
          rw [List.mem_append] at hx
          rcases hx with hx | hx
          · rw [List.mem_append] at hx
            rcases hx with hx | hx
            · exact hch x hx
            · by_cases hc : current = []
              · simp [hc] at hx
              · simp only [if_neg hc, List.mem_singleton] at hx
                subst hx
                rw [wordsOf_join_space]
                omega
          · exact splitByWords_bound (stripText s) max hmax x hx
        · rw [if_neg hbig] at hmem
          by_cases hguard : max <
              tokens + (if current = [] then 0 else 1) + countTokens (stripText s)
          · rw [if_pos hguard] at hmem
            refine ih [stripText s] (countTokens (stripText s))
              (chunks ++ if current = [] then []
                else [intercalateTexts [' '] current])
              ?_ (by omega) ?_ ch hmem
            · rw [List.flatMap_cons, List.flatMap_nil, List.append_nil]
              exact words_le_countTokens (stripText s)
            · intro x hx
              rw [List.mem_append] at hx
              rcases hx with hx | hx
              · exact hch x hx
              · by_cases hc : current = []
                · simp [hc] at hx
                · simp only [if_neg hc, List.mem_singleton] at hx
                  subst hx
                  rw [wordsOf_join_space]
                  omega
          · rw [if_neg hguard] at hmem
            refine ih (current ++ [stripText s])
              (tokens + (if current = [] then 0 else 1) + countTokens (stripText s))
              chunks ?_ (by omega) hch ch hmem
            rw [List.flatMap_append, List.length_append, List.flatMap_cons,
              List.flatMap_nil, List.append_nil]
            have := words_le_countTokens (stripText s)
            omega

lemma splitLargeBlockLoop_words (max : Nat) (hmax : 0 < max) :
    ∀ (sents current : List PyText) (tokens : Nat) (chunks : List PyText),
      (splitLargeBlockLoop max sents current tokens chunks).flatMap wordsOf
        = chunks.flatMap wordsOf ++ current.flatMap wordsOf
            ++ sents.flatMap wordsOf := by
  intro sents
  induction sents with
  | nil =>
      intro current tokens chunks
      simp only [splitLargeBlockLoop]
      rw [List.flatMap_append]
      by_cases hc : current = []
      · simp [hc]
      · simp only [if_neg hc]
        rw [List.flatMap_cons, List.flatMap_nil, List.append_nil,
          wordsOf_join_space]
        simp
  | cons s rest ih =>
      intro current tokens chunks
      simp only [splitLargeBlockLoop]
      by_cases hempty : stripText s = []
      · rw [if_pos hempty]
        rw [ih current tokens chunks]
        have hs : wordsOf s = [] := by
          rw [← wordsOf_stripText s, hempty]
          rfl
        rw [List.flatMap_cons, hs, List.nil_append]
      · rw [if_neg hempty]
        have hsw : wordsOf (stripText s) = wordsOf s := wordsOf_stripText s
        by_cases hbig : max < countTokens (stripText s)
        · rw [if_pos hbig]
          rw [ih [] 0 _]
          rw [List.flatMap_append, List.flatMap_append,
            splitByWords_words (stripText s) max hmax, hsw]
          by_cases hc : current = []
          · simp [hc]
          · simp only [if_neg hc]
            rw [List.flatMap_cons, List.flatMap_nil, List.append_nil,
              wordsOf_join_space]
            simp [List.append_assoc]
        · rw [if_neg hbig]
          by_cases hguard : max <
              tokens + (if current = [] then 0 else 1) + countTokens (stripText s)
          · rw [if_pos hguard]
            rw [ih [stripText s] (countTokens (stripText s)) _]
            rw [List.flatMap_append, List.flatMap_cons, List.flatMap_nil,
              List.append_nil, hsw]
            by_cases hc : current = []
            · simp [hc]
            · simp only [if_neg hc]
              rw [List.flatMap_cons, List.flatMap_nil, List.append_nil,
                wordsOf_join_space]
              simp [List.append_assoc]
          · rw [if_neg hguard]
            rw [ih (current ++ [stripText s]) _ chunks]
            rw [List.flatMap_append, List.flatMap_cons, List.flatMap_nil,
              List.append_nil, hsw]
            simp [List.append_assoc]

lemma splitLargeBlock_bound (t : PyText) (max : Nat) (hmax : 0 < max) :
    ∀ ch ∈ splitLargeBlock t max, (wordsOf ch).length ≤ max := by
  intro ch hmem
  unfold splitLargeBlock at hmem
  by_cases h : 1 < (splitSentences t).length
  · rw [if_pos h] at hmem
    exact splitLargeBlockLoop_bound max hmax (splitSentences t) [] 0 []
      (by simp) (by omega) (by simp) ch hmem
  · rw [if_neg h] at hmem
    exact splitByWords_bound t max hmax ch hmem

lemma splitLargeBlock_words (t : PyText) (max : Nat) (hmax : 0 < max) :
    (splitLargeBlock t max).flatMap wordsOf = wordsOf t := by
  unfold splitLargeBlock
  by_cases h : 1 < (splitSentences t).length
  · rw [if_pos h]
    rw [splitLargeBlockLoop_words max hmax (splitSentences t) [] 0 []]
    rw [splitSentences_words]
    simp
  · rw [if_neg h]
    exact splitByWords_words t max hmax

lemma chunkParaLoop_bound (max : Nat) (hmax : 0 < max) :
    ∀ (paras current : List PyText) (tokens : Nat) (chunks : List PyText),
      (current.flatMap wordsOf).length ≤ tokens →
      tokens ≤ max →
      (∀ ch ∈ chunks, (wordsOf ch).length ≤ max) →
      ∀ ch ∈ chunkParaLoop max paras current tokens chunks,
        (wordsOf ch).length ≤ max := by
  intro paras
  induction paras with
  | nil =>
      intro current tokens chunks hcur htok hch ch hmem
      simp only [chunkParaLoop] at hmem
      rw [List.mem_append] at hmem
      rcases hmem with hmem | hmem
      · exact hch ch hmem
      · by_cases hc : current = []
        · simp [hc] at hmem
        · simp only [if_neg hc, List.mem_singleton] at hmem
          subst hmem
          rw [wordsOf_join_nl2]
          omega
  | cons p rest ih =>
      intro current tokens chunks hcur htok hch ch hmem
      simp only [chunkParaLoop] at hmem
      by_cases hempty : stripText p = []
      · rw [if_pos hempty] at hmem
        exact ih current tokens chunks hcur htok hch ch hmem
      · rw [if_neg hempty] at hmem
        by_cases hbig : max < countTokens (stripText p)
        · rw [if_pos hbig] at hmem
          refine ih [] 0
            ((chunks ++ if current = [] then []
              else [intercalateTexts nl2 current])
              ++ splitLargeBlock (stripText p) max)
            (by simp) (by omega) ?_ ch hmem
          intro x hx
          rw [List.mem_append] at hx
          rcases hx with hx | hx
          · rw [List.mem_append] at hx
            rcases hx with hx | hx
            · exact hch x hx
            · by_cases hc : current = []
              · simp [hc] at hx
              · simp only [if_neg hc, List.mem_singleton] at hx
                subst hx
                rw [wordsOf_join_nl2]
                omega
          · exact splitLargeBlock_bound (stripText p) max hmax x hx
        · rw [if_neg hbig] at hmem
          by_cases hguard : max <
              tokens + (if current = [] then 0 else countTokens nl2) +
                countTokens (stripText p)
          · rw [if_pos hguard] at hmem
            refine ih [stripText p] (countTokens (stripText p))
              (chunks ++ if current = [] then []
                else [intercalateTexts nl2 current])
              ?_ (by omega) ?_ ch hmem
            · rw [List.flatMap_cons, List.flatMap_nil, List.append_nil]
              exact words_le_countTokens (stripText p)
            · intro x hx
              rw [List.mem_append] at hx
              rcases hx with hx | hx
              · exact hch x hx
              · by_cases hc : current = []
                · simp [hc] at hx
                · simp only [if_neg hc, List.mem_singleton] at hx
                  subst hx
                  rw [wordsOf_join_nl2]
                  omega
          · rw [if_neg hguard] at hmem
            refine ih (current ++ [stripText p])
              (tokens + (if current = [] then 0 else countTokens nl2) +
                countTokens (stripText p))
              chunks ?_ (by omega) hch ch hmem
            rw [List.flatMap_append, List.length_append, List.flatMap_cons,
              List.flatMap_nil, List.append_nil]
            have := words_le_countTokens (stripText p)
            omega

lemma chunkParaLoop_words (max : Nat) (hmax : 0 < max) :
    ∀ (paras current : List PyText) (tokens : Nat) (chunks : List PyText),
      (chunkParaLoop max paras current tokens chunks).flatMap wordsOf
        = chunks.flatMap wordsOf ++ current.flatMap wordsOf
            ++ paras.flatMap wordsOf := by
  intro paras
  induction paras with
  | nil =>
      intro current tokens chunks
      simp only [chunkParaLoop]
      rw [List.flatMap_append]
      by_cases hc : current = []
      · simp [hc]
      · simp only [if_neg hc]
        rw [List.flatMap_cons, List.flatMap_nil, List.append_nil,
          wordsOf_join_nl2]
        simp
  | cons p rest ih =>
      intro current tokens chunks
      simp only [chunkParaLoop]
      by_cases hempty : stripText p = []
      · rw [if_pos hempty]
        rw [ih current tokens chunks]
        have hp : wordsOf p = [] := by
          rw [← wordsOf_stripText p, hempty]
          rfl
        rw [List.flatMap_cons, hp, List.nil_append]
      · rw [if_neg hempty]
        have hpw : wordsOf (stripText p) = wordsOf p := wordsOf_stripText p
        by_cases hbig : max < countTokens (stripText p)
        · rw [if_pos hbig]
          rw [ih [] 0 _]
          rw [List.flatMap_append, List.flatMap_append,
            splitLargeBlock_words (stripText p) max hmax, hpw]
          by_cases hc : current = []
          · simp [hc]
          · simp only [if_neg hc]
            rw [List.flatMap_cons, List.flatMap_nil, List.append_nil,
              wordsOf_join_nl2]
            simp [List.append_assoc]
        · rw [if_neg hbig]
          by_cases hguard : max <
              tokens + (if current = [] then 0 else countTokens nl2) +
                countTokens (stripText p)
          · rw [if_pos hguard]
            rw [ih [stripText p] (countTokens (stripText p)) _]
            rw [List.flatMap_append, List.flatMap_cons, List.flatMap_nil,
              List.append_nil, hpw]
            by_cases hc : current = []
            · simp [hc]
            · simp only [if_neg hc]
              rw [List.flatMap_cons, List.flatMap_nil, List.append_nil,
                wordsOf_join_nl2]
              simp [List.append_assoc]
          · rw [if_neg hguard]
            rw [ih (current ++ [stripText p]) _ chunks]
            rw [List.flatMap_append, List.flatMap_cons, List.flatMap_nil,
              List.append_nil, hpw]
            simp [List.append_assoc]

/-- C6 (amended): for every text and positive budget, every chunk returned
by `chunk_text` has word count at most `maxTokens` — hence an estimated
token count at most `13 * maxTokens / 10`, a 30% tolerance that is the
tight bound, looser than both `maxTokens` itself and the 200-token margin
the test suite documents — and the chunks preserve exactly the words of the
original text, in order. -/
theorem chunk_bound_and_words (t : PyText) (maxTokens : Nat) (hmax : 0 < maxTokens) :
    (∀ ch ∈ chunkText t maxTokens,
        (wordsOf ch).length ≤ maxTokens ∧
        countTokens ch ≤ 13 * maxTokens / 10) ∧
    (chunkText t maxTokens).flatMap wordsOf = wordsOf t ∧
    (∀ w ∈ wordsOf t, w ∈ (chunkText t maxTokens).flatMap wordsOf) := by
  have hbound : ∀ ch ∈ chunkText t maxTokens, (wordsOf ch).length ≤ maxTokens := by
    intro ch hmem
    unfold chunkText at hmem
    by_cases h0 : t = [] ∨ maxTokens = 0
    · simp [h0] at hmem
    · rw [if_neg h0] at hmem
      by_cases h1 : countTokens t ≤ maxTokens
      · rw [if_pos h1] at hmem
        rw [List.mem_singleton] at hmem
        subst hmem
        exact le_trans (words_le_countTokens ch) h1
      · rw [if_neg h1] at hmem
        exact chunkParaLoop_bound maxTokens hmax (splitNl2 t) [] 0 []
          (by simp) (by omega) (by simp) ch hmem
  have hwords : (chunkText t maxTokens).flatMap wordsOf = wordsOf t := by
    unfold chunkText
    by_cases h0 : t = [] ∨ maxTokens = 0
    · have ht : t = [] := by
        rcases h0 with h | h
        · exact h
        · omega
      rw [if_pos h0, ht]
      rfl
    · rw [if_neg h0]
      by_cases h1 : countTokens t ≤ maxTokens
      · rw [if_pos h1]
        simp
      · rw [if_neg h1]
        rw [chunkParaLoop_words maxTokens hmax (splitNl2 t) [] 0 []]
        rw [splitNl2_words]
        simp
  refine ⟨?_, hwords, ?_⟩
  · intro ch hmem
    refine ⟨hbound ch hmem, ?_⟩
    unfold countTokens
    have := hbound ch hmem
    exact Nat.div_le_div_right (by omega)
  · intro w hw
    rw [hwords]
    exact hw

/-- Witness for `chunk_bound_and_words`: a small two-word text under a
budget of 50 tokens. -/
theorem chunk_bound_and_words_witness :
    (∀ ch ∈ chunkText ("hello world").data 50,
        (wordsOf ch).length ≤ 50 ∧
        countTokens ch ≤ 13 * 50 / 10) ∧
    (chunkText ("hello world").data 50).flatMap wordsOf
      = wordsOf ("hello world").data ∧
    (∀ w ∈ wordsOf ("hello world").data,
        w ∈ (chunkText ("hello world").data 50).flatMap wordsOf) :=
  chunk_bound_and_words ("hello world").data 50 (by norm_num)

/-- The text used against C6: one thousand one-word paragraphs.  The
paragraph loop books each at `int(1 * 1.3) = 1` token and packs all of
them into one chunk, which then estimates to `int(1000 * 1.3) = 1300`
tokens — 30% over the budget of 1000 and beyond the 200-token margin the
test suite allows. -/
def c6Text : PyText := intercalateTexts nl2 (List.replicate 1000 (['a'] : PyText))

lemma flatMap_words_replicate :
    ∀ n : Nat, (List.replicate n (['a'] : PyText)).flatMap wordsOf
      = List.replicate n (['a'] : PyText) := by
  intro n
  induction n with
  | zero => rfl
  | succ n ih =>
      rw [List.replicate_succ, List.flatMap_cons, ih]
      rw [show wordsOf ['a'] = [['a']] from by decide]
      rw [List.singleton_append, ← List.replicate_succ]

lemma c6_words : wordsOf c6Text = List.replicate 1000 (['a'] : PyText) := by
  unfold c6Text
  rw [wordsOf_join_nl2, flatMap_words_replicate]

lemma countTokens_eq' (t : PyText) (l : List PyText) (h : wordsOf t = l) :
    countTokens t = 13 * l.length / 10 := by
  unfold countTokens
  rw [h]

lemma c6_tokens : countTokens c6Text = 1300 :=
  Eq.trans (countTokens_eq' c6Text _ c6_words) (by rw [List.length_replicate])

lemma c6_ne_nil : c6Text ≠ [] := by
  intro h
  have hw := c6_words
  rw [h, show wordsOf ([] : PyText) = [] from rfl] at hw
  have := congrArg List.length hw
  rw [List.length_replicate, List.length_nil] at this
  exact absurd this (by norm_num)

lemma splitNl2Aux_replicate :
    ∀ (n : Nat) (acc : PyText),
      splitNl2Aux (intercalateTexts nl2 (List.replicate (n + 1) (['a'] : PyText))) acc
        = (acc.reverse ++ ['a']) :: List.replicate n (['a'] : PyText) := by
  intro n
  induction n with
  | zero =>
      intro acc
      rw [show List.replicate 1 (['a'] : PyText) = [['a']] from rfl]
      show splitNl2Aux ['a'] acc = (acc.reverse ++ ['a']) :: []
      rw [show splitNl2Aux ['a'] acc = [('a' :: acc).reverse] from rfl,
        List.reverse_cons]
  | succ n ih =>
      intro acc
      have hne : List.replicate (n + 1) (['a'] : PyText) ≠ [] := by
        intro h
        have := congrArg List.length h
        rw [List.length_replicate, List.length_nil] at this
        exact absurd this (by omega)
      rw [List.replicate_succ, intercalateTexts_cons _ _ _ hne]
      rw [show (['a'] : PyText) ++ nl2 ++
            intercalateTexts nl2 (List.replicate (n + 1) (['a'] : PyText))
          = 'a' :: '\n' :: '\n' ::
            intercalateTexts nl2 (List.replicate (n + 1) (['a'] : PyText)) from rfl]
      rw [show splitNl2Aux ('a' :: '\n' :: '\n' ::
            intercalateTexts nl2 (List.replicate (n + 1) (['a'] : PyText))) acc
          = ('a' :: acc).reverse ::
              splitNl2Aux
                (intercalateTexts nl2 (List.replicate (n + 1) (['a'] : PyText))) []
          from rfl]
      rw [ih []]
      rw [List.reverse_cons, List.reverse_nil, List.nil_append,
        ← List.replicate_succ]

lemma c6_split : splitNl2 c6Text = List.replicate 1000 (['a'] : PyText) := by
  unfold splitNl2 c6Text
  rw [show (1000 : Nat) = 999 + 1 from rfl]
  rw [splitNl2Aux_replicate 999 []]
  rw [List.reverse_nil, List.nil_append, ← List.replicate_succ]

lemma chunkParaLoop_replicate (max : Nat) (hmax : 1 ≤ max) :
    ∀ (k : Nat) (cur : List PyText) (tok : Nat) (chs : List PyText),
      tok + k ≤ max →
      chunkParaLoop max (List.replicate k (['a'] : PyText)) cur tok chs
        = chs ++ (if cur ++ List.replicate k (['a'] : PyText) = [] then []
                  else [intercalateTexts nl2
                          (cur ++ List.replicate k (['a'] : PyText))]) := by
  intro k
  induction k with
  | zero =>
      intro cur tok chs _
      rw [show List.replicate 0 (['a'] : PyText) = [] from rfl, List.append_nil]
      rfl
  | succ k ih =>
      intro cur tok chs hbudget
      rw [List.replicate_succ]
      simp only [chunkParaLoop]
      rw [show stripText ['a'] = ['a'] from by decide]
      rw [if_neg (by decide)]
      rw [show countTokens ['a'] = 1 from by decide]
      rw [if_neg (by omega)]
      rw [show countTokens nl2 = 0 from by decide, ite_self]
      rw [if_neg (by omega)]
      rw [ih (cur ++ [['a']]) (tok + 0 + 1) chs (by omega)]
      rw [List.append_assoc, List.singleton_append, ← List.replicate_succ]

/-- C6 counterexample: `chunk_text` on a thousand one-word paragraphs with
`max_tokens = 1000` returns the whole text as a single chunk whose
estimated token count is 1300 — exceeding `max_tokens`, and exceeding it
by more than the 200-token margin the test suite tolerates. -/
theorem chunk_exceeds_max :
    chunkText c6Text 1000 = [c6Text] ∧
    countTokens c6Text = 1300 ∧ 1000 + 200 < 1300 := by
  refine ⟨?_, c6_tokens, by norm_num⟩
  unfold chunkText
  rw [if_neg (not_or.mpr ⟨c6_ne_nil, by norm_num⟩)]
  rw [c6_tokens]
  rw [if_neg (by norm_num)]
  rw [c6_split]
  rw [chunkParaLoop_replicate 1000 (by norm_num) 1000 [] 0 [] (by norm_num)]
  rw [List.nil_append, List.nil_append]
  rw [if_neg (by
    intro h
    have := congrArg List.length h
    rw [List.length_replicate, List.length_nil] at this
    exact absurd this (by norm_num))]
  rfl
